import Mathlib

/-!
# Verification of the node-mysql-scale-pool connection pool (src/Pool.js)

This file gives a shallow embedding of the pool's state machine from
src/Pool.js and proves/refutes the frozen claims about it.

Modelling conventions:

* Connections are identified by natural numbers (reference identity in JS);
  a counter PoolState.nextConn supplies fresh identities.
* JS Set objects preserve insertion order, so the four collections are
  modelled as duplicate-free lists in insertion order; the helper methods
  of Pool.js are embedded directly, in particular:
  - dollar-add with its has-check (sAdd),
  - dollar-remove via erase (sRemove),
  - dollar-first, which in the source reads the iterator result object and
    calls set.delete on that wrapper object rather than on item.value; the
    wrapper is never a member of the set, so the delete is a no-op and
    dollar-first returns the first element WITHOUT removing it.  The model
    reproduces this faithfully.
* Numeric configuration limits are modelled as Nat (finite limits; the
  Infinity defaults are out of scope of the claims, which are about the
  bounded behaviour).
* JS is single threaded; the atomic units are the synchronous blocks and the
  promise-continuation chains that run deterministically once started.  The
  asynchronous completions (connect handshake, query completion, timer tick,
  external release/destroy calls) are the events of a labelled transition
  system.  A query dispatch chain (getConnection resolution, useConnection,
  maybeBufferConnection, the synchronous part of the query) is run as one
  step of the corresponding event, which matches the run-to-completion
  semantics of the microtask chain when no other event interleaves.
* PoolState.bufferRuns is a ghost counter of invocations of
  maybeBufferConnection, and the Obs trace of each step is ghost output used
  to observe dispatches, creations and caller-visible settlements.
-/

set_option maxRecDepth 4000

namespace ScalePool

/-- Pool configuration, from configDefaults merged with the user config in
the constructor.  acquireTimeout and the opaque connectionConfig blob do not
influence the control logic and are omitted. -/
structure Config where
  bufferOnConstruct : Bool
  connectionBuffer : Nat
  connectionDecay : Nat
  maxConnectionLimit : Nat
  minConnectionLimit : Nat
  queueLimit : Nat
  scaleInterval : Nat
  deriving DecidableEq, Repr

/-- Why a connect handshake is outstanding: a direct getConnection caller, a
query dispatch, or a buffering attempt.  This decides what the completion
continuation does (resolve the caller, run the query chain, or discard). -/
inductive PendKind where
  | caller
  | forQuery
  | buffer
  deriving DecidableEq, Repr

/-- The pool state: the four collections of Pool.js plus bookkeeping for the
outstanding asynchronous operations and ghost instrumentation. -/
structure PoolState where
  /-- all connections created and not yet removed -/
  connections : List Nat
  /-- connections connecting or querying -/
  busyConnections : List Nat
  /-- connections connected and not querying -/
  freeConnections : List Nat
  /-- queued queries, by queue-entry identity -/
  queryQueue : List Nat
  /-- the closed flag set by onEnd -/
  closed : Bool
  /-- per-connection lastQuery timestamp (absent until first query starts) -/
  lastQuery : List (Nat × Nat)
  /-- connections with an outstanding connect handshake, with the reason -/
  pendingConnect : List (Nat × PendKind)
  /-- connections with a query currently executing -/
  inFlight : List Nat
  /-- fresh connection identities -/
  nextConn : Nat
  /-- fresh queue-entry identities -/
  nextQuery : Nat
  /-- ghost: number of maybeBufferConnection invocations -/
  bufferRuns : Nat
  deriving DecidableEq, Repr

/-- Embedding of the dollar-add helper: add unless already present (JS Set
add is idempotent; the skipCheck fast path has the same effect). -/
def sAdd (s : List Nat) (c : Nat) : List Nat :=
  if c ∈ s then s else s ++ [c]

/-- Embedding of the dollar-remove helper: Set delete. -/
def sRemove (s : List Nat) (c : Nat) : List Nat :=
  s.erase c

/-- Embedding of dollar-first.  The source takes values().next() and calls
set.delete on the iterator result object itself, not on item.value, so the
element is returned but never removed. -/
def sFirst (s : List Nat) : Option Nat :=
  s.head?

/-- Observable outcomes of one step: caller-visible settlements and the
internal dispatch/creation events (ghost trace). -/
inductive Obs where
  /-- a caller was rejected with the pool-closed error -/
  | poolClosedError
  /-- a caller was rejected with the queue-full error -/
  | queueFullError
  /-- a getConnection caller was rejected with the no-connections error -/
  | noConnError
  /-- a caller was rejected with the connect (handshake) error -/
  | connectError
  /-- a getConnection caller was resolved with connection c -/
  | resolvedConn (c : Nat)
  /-- a new connection c was created and its handshake started -/
  | createdConn (c : Nat)
  /-- a query was enqueued as queue entry q -/
  | enqueued (q : Nat)
  /-- a query started executing on connection c; q is the queue entry being
  re-dispatched, or none for a fresh query -/
  | dispatched (c : Nat) (q : Option Nat)
  deriving DecidableEq, Repr

/-- Embedding of useConnection: move a connection from free to busy
(guarded by the closed flag, as in the source). -/
def useConnection (st : PoolState) (c : Nat) : PoolState :=
  if st.closed then st
  else { st with freeConnections := sRemove st.freeConnections c,
                 busyConnections := sAdd st.busyConnections c }

/-- Embedding of removeConnection: remove from busy, free and all
(guarded by the closed flag, as in the source). -/
def removeConnection (st : PoolState) (c : Nat) : PoolState :=
  if st.closed then st
  else { st with busyConnections := sRemove st.busyConnections c,
                 freeConnections := sRemove st.freeConnections c,
                 connections := sRemove st.connections c }

/-- The state after the busy-to-free move of releaseConnection. -/
def releasedState (st : PoolState) (c : Nat) : PoolState :=
  { st with busyConnections := sRemove st.busyConnections c,
            freeConnections := sAdd st.freeConnections c }

/-- The state after a pending handshake entry is consumed. -/
def erasePend (st : PoolState) (c : Nat) : PoolState :=
  { st with pendingConnect := st.pendingConnect.eraseP (fun p => p.1 == c) }

/-- Result of the synchronous part of getConnection. -/
inductive GetR where
  | resolved (c : Nat)
  | created (c : Nat)
  | closedErr
  | capacityErr
  deriving DecidableEq, Repr

/-- Embedding of the synchronous executor of getConnection: closed check,
then the free branch (dollar-first: the connection is resolved but NOT
removed from the free set), then create-and-connect under the max limit
(createConnection adds to all, connectConnection adds to busy and starts the
handshake), else the no-connections rejection. -/
def getConnection (cfg : Config) (kind : PendKind) (st : PoolState) :
    PoolState × GetR :=
  if st.closed then (st, GetR.closedErr)
  else
    match st.freeConnections with
    | c :: _ => (st, GetR.resolved c)
    | [] =>
      if st.connections.length < cfg.maxConnectionLimit then
        let c := st.nextConn
        ({ st with connections := sAdd st.connections c,
                   busyConnections := sAdd st.busyConnections c,
                   pendingConnect := st.pendingConnect ++ [(c, kind)],
                   nextConn := c + 1 }, GetR.created c)
      else (st, GetR.capacityErr)

/-- One buffering acquisition attempt inside the maybeBufferConnection loop:
getConnection with the result discarded and failures swallowed; only the
creations are recorded in the trace. -/
def bufferLoop (cfg : Config) : Nat → PoolState → PoolState × List Obs
  | 0, st => (st, [])
  | n + 1, st =>
    let g := getConnection cfg PendKind.buffer st
    let o : List Obs :=
      match g.2 with
      | GetR.created c => [Obs.createdConn c]
      | _ => []
    let r := bufferLoop cfg n g.1
    (r.1, o ++ r.2)

/-- Embedding of maybeBufferConnection: the guard, the buffer amount
computation and the loop of getConnection calls whose rejections are
swallowed.  bufferRuns counts the invocation (ghost). -/
def maybeBufferConnection (cfg : Config) (st : PoolState) :
    PoolState × List Obs :=
  let st1 := { st with bufferRuns := st.bufferRuns + 1 }
  if cfg.connectionBuffer ≠ 0 ∧
     st1.connections.length < cfg.maxConnectionLimit ∧
     st1.freeConnections.length < cfg.connectionBuffer then
    let buffer :=
      if cfg.maxConnectionLimit < st1.connections.length + cfg.connectionBuffer
      then cfg.maxConnectionLimit - st1.connections.length
      else if st1.freeConnections.length ≠ 0
      then cfg.connectionBuffer - st1.freeConnections.length
      else cfg.connectionBuffer
    bufferLoop cfg buffer st1
  else (st1, [])

/-- Embedding of the synchronous part of the private query runner: record
the lastQuery timestamp and mark the query as executing on the connection. -/
def startQuery (st : PoolState) (c now : Nat) : PoolState :=
  { st with
    lastQuery := (c, now) :: st.lastQuery.filter (fun p => p.1 != c),
    inFlight := st.inFlight ++ [c] }

/-- Embedding of a query call: the closed rejection, the queue/queue-full
branch when there is no free connection and the pool is at the max limit,
and otherwise the dispatch chain getConnection / useConnection /
maybeBufferConnection / startQuery.  rq is the queue entry being
re-dispatched (none for a fresh caller query). -/
def queryRun (cfg : Config) (now : Nat) (st : PoolState) (rq : Option Nat) :
    PoolState × List Obs :=
  if st.closed then (st, [Obs.poolClosedError])
  else if st.freeConnections.length = 0 ∧
          cfg.maxConnectionLimit ≤ st.connections.length then
    if st.queryQueue.length < cfg.queueLimit then
      ({ st with queryQueue := st.queryQueue ++ [st.nextQuery],
                 nextQuery := st.nextQuery + 1 },
       [Obs.enqueued st.nextQuery])
    else (st, [Obs.queueFullError])
  else
    let g := getConnection cfg PendKind.forQuery st
    match g.2 with
    | GetR.resolved c =>
      let mb := maybeBufferConnection cfg (useConnection g.1 c)
      (startQuery mb.1 c now, Obs.dispatched c rq :: mb.2)
    | GetR.created c => (g.1, [Obs.createdConn c])
    | _ => (g.1, [])

/-- Embedding of releaseConnection: move busy to free, then, when the free
set and the queue are non-empty, dispatch the oldest queued query through
the normal query path.  dollar-first on the queue returns the head WITHOUT
removing it (the set.delete no-op), so the queue is left unchanged. -/
def releaseConnection (cfg : Config) (now : Nat) (st : PoolState) (c : Nat) :
    PoolState × List Obs :=
  if st.closed then (st, [])
  else
    let st1 := releasedState st c
    if 0 < st1.freeConnections.length ∧ st1.queryQueue ≠ [] then
      queryRun cfg now st1 st1.queryQueue.head?
    else (st1, [])

/-- Lookup of an outstanding handshake. -/
def lookupPending (st : PoolState) (c : Nat) : Option PendKind :=
  (st.pendingConnect.find? (fun p => p.1 == c)).map (fun p => p.2)

/-- How a settlement of a pending handshake surfaces: buffering settlements
are swallowed by the catch handler; caller and query settlements surface. -/
def settleObs (kind : PendKind) (o : Obs) : List Obs :=
  match kind with
  | PendKind.buffer => []
  | _ => [o]

/-- Embedding of the connect callback in connectConnection plus the
continuations attached by the requester: the shared release path runs FIRST
(success or failure alike), then the closed check, then on error the
getConnection failure handler removes the connection and rejects the
requester; on success the requester gets the connection (for a query
dispatch, the useConnection / maybeBufferConnection / startQuery chain). -/
def connectDone (cfg : Config) (now c : Nat) (ok : Bool) (st : PoolState) :
    PoolState × List Obs :=
  match lookupPending st c with
  | none => (st, [])
  | some kind =>
    let st0 := erasePend st c
    let r1 := releaseConnection cfg now st0 c
    if r1.1.closed then (r1.1, r1.2 ++ settleObs kind Obs.poolClosedError)
    else if ok = false then
      (removeConnection r1.1 c, r1.2 ++ settleObs kind Obs.connectError)
    else
      match kind with
      | PendKind.caller => (r1.1, r1.2 ++ [Obs.resolvedConn c])
      | PendKind.buffer => (r1.1, r1.2)
      | PendKind.forQuery =>
        let mb := maybeBufferConnection cfg (useConnection r1.1 c)
        (startQuery mb.1 c now, r1.2 ++ Obs.dispatched c none :: mb.2)

/-- Embedding of the query completion callback in the private query runner:
the release path runs, then the caller is settled with the result. -/
def queryDone (cfg : Config) (now c : Nat) (st : PoolState) :
    PoolState × List Obs :=
  if c ∈ st.inFlight then
    releaseConnection cfg now { st with inFlight := st.inFlight.erase c } c
  else (st, [])

/-- The staleness test of the decay scanner: no recorded lastQuery, or the
last query is at least connectionDecay milliseconds old. -/
def staleB (decay now : Nat) (lq : Option Nat) : Bool :=
  match lq with
  | none => true
  | some t => decide (decay ≤ now - t)

/-- Lookup of a connection's lastQuery timestamp. -/
def lastQueryOf (st : PoolState) (c : Nat) : Option Nat :=
  (st.lastQuery.find? (fun p => p.1 == c)).map (fun p => p.2)

/-- The JS sort comparator of the decay scanner, as a boolean order for a
stable sort: the comparator subtracts the two lastQuery values; when either
is unset the subtraction is NaN, which SortCompare maps to +0, i.e. a tie.
The order places a before b exactly when the comparator is at most 0. -/
def jsLE (st : PoolState) (a b : Nat) : Bool :=
  match lastQueryOf st a, lastQueryOf st b with
  | some x, some y => decide (x ≤ y)
  | _, _ => true

/-- The stale free connections a decay tick marks purgeable. -/
def staleFree (cfg : Config) (now : Nat) (st : PoolState) : List Nat :=
  st.freeConnections.filter
    (fun c => staleB cfg.connectionDecay now (lastQueryOf st c))

/-- Stable insertion step: a goes before the first element it compares at
most equal to, so elements comparing as ties keep their original order. -/
def insSorted (le : Nat → Nat → Bool) (a : Nat) : List Nat → List Nat
  | [] => [a]
  | b :: l => if le a b then a :: b :: l else b :: insSorted le a l

/-- Stable sort (insertion sort), the model of the required-stable JS
Array.prototype.sort for the comparator above. -/
def jsSort (le : Nat → Nat → Bool) : List Nat → List Nat
  | [] => []
  | a :: l => insSorted le a (jsSort le l)

/-- Number of elements kept (at the front) by the JS splice call
splice(start, length - start): for a negative start JS counts from the end
and clamps at 0. -/
def spliceKeep (len : Nat) (start : Int) : Nat :=
  if 0 ≤ start then min start.toNat len
  else len - min len (-start).toNat

/-- Embedding of onScaleInterval (one decay-scanner tick): collect the free
connections that are stale, and if purging all of them would drop the total
below minConnectionLimit, sort them with the JS comparator and keep only the
first connections-minus-min entries; destroy (removeConnection) each
selected connection. -/
def onScaleInterval (cfg : Config) (now : Nat) (st : PoolState) : PoolState :=
  if cfg.connectionDecay = 0 then st
  else
    let purgable := staleFree cfg now st
    if purgable.length = 0 then st
    else
      let purgable2 :=
        if (st.connections.length : Int) - purgable.length <
           (cfg.minConnectionLimit : Int) then
          (jsSort (jsLE st) purgable).take
            (spliceKeep purgable.length
              ((st.connections.length : Int) - (cfg.minConnectionLimit : Int)))
        else purgable
      purgable2.foldl removeConnection st

/-- Embedding of onEnd, the continuation of end() and destroy(): set the
closed flag and clear the four collections. -/
def onEnd (st : PoolState) : PoolState :=
  { st with closed := true, connections := [], busyConnections := [],
            freeConnections := [], queryQueue := [] }

/-- The events of the labelled transition system: the public operations and
the asynchronous completions. -/
inductive Event where
  /-- an external getConnection() call -/
  | getConn
  /-- an external query() call at time now -/
  | doQuery (now : Nat)
  /-- completion of the connect handshake of connection c (ok or failed) -/
  | connectFinish (c : Nat) (ok : Bool) (now : Nat)
  /-- completion of the query executing on connection c -/
  | queryFinish (c : Nat) (now : Nat)
  /-- an external releaseConnection(c) call, from a connection of the pool -/
  | release (c : Nat) (now : Nat)
  /-- an external purge, from destroy() on a connection of the pool -/
  | purge (c : Nat)
  /-- a maybeBufferConnection invocation -/
  | bufferTick
  /-- a decay-scanner timer tick at time now -/
  | scaleTick (now : Nat)
  /-- the onEnd continuation of end()/destroy() -/
  | closePool
  deriving DecidableEq, Repr

/-- Caller-visible settlement of the synchronous getConnection result. -/
def getObs : GetR → List Obs
  | GetR.resolved c => [Obs.resolvedConn c]
  | GetR.created c => [Obs.createdConn c]
  | GetR.closedErr => [Obs.poolClosedError]
  | GetR.capacityErr => [Obs.noConnError]

/-- One step of the transition system.  The release and purge events are
guarded by pool membership (they are issued by connections of this pool);
buffering and scanner ticks cannot occur on a closed pool (the constructor
interval is cleared by onEnd and the collections are nulled). -/
def stepFn (cfg : Config) (ev : Event) (st : PoolState) :
    PoolState × List Obs :=
  match ev with
  | Event.getConn =>
    let g := getConnection cfg PendKind.caller st
    (g.1, getObs g.2)
  | Event.doQuery now => queryRun cfg now st none
  | Event.connectFinish c ok now => connectDone cfg now c ok st
  | Event.queryFinish c now => queryDone cfg now c st
  | Event.release c now =>
    if c ∈ st.connections then releaseConnection cfg now st c else (st, [])
  | Event.purge c =>
    if c ∈ st.connections then (removeConnection st c, []) else (st, [])
  | Event.bufferTick =>
    if st.closed then (st, []) else maybeBufferConnection cfg st
  | Event.scaleTick now =>
    if st.closed = false ∧ cfg.scaleInterval ≠ 0 ∧ cfg.connectionDecay ≠ 0
    then (onScaleInterval cfg now st, [])
    else (st, [])
  | Event.closePool => (onEnd st, [])

/-- The empty initial state. -/
def initState : PoolState :=
  { connections := [], busyConnections := [], freeConnections := [],
    queryQueue := [], closed := false, lastQuery := [], pendingConnect := [],
    inFlight := [], nextConn := 0, nextQuery := 0, bufferRuns := 0 }

/-- The constructor: buffering runs once when bufferOnConstruct is set. -/
def construct (cfg : Config) : PoolState :=
  if cfg.bufferOnConstruct then (maybeBufferConnection cfg initState).1
  else initState

/-- Run a list of events from a state. -/
def runEvents (cfg : Config) (st : PoolState) (evs : List Event) : PoolState :=
  evs.foldl (fun s ev => (stepFn cfg ev s).1) st

/-- The states reachable by any sequence of events. -/
inductive Reachable (cfg : Config) : PoolState → Prop where
  | init : Reachable cfg (construct cfg)
  | step (ev : Event) {st : PoolState} :
      Reachable cfg st → Reachable cfg (stepFn cfg ev st).1

/-- An event is good at a state when its completion does not concern a
connection already purged from the all-connections set (such completions are
the one way the release path can act on a non-member). -/
def GoodEvent (st : PoolState) : Event → Prop
  | Event.connectFinish c _ _ => c ∈ st.connections ∨ lookupPending st c = none
  | Event.queryFinish c _ => c ∈ st.connections ∨ c ∉ st.inFlight
  | _ => True

/-- The states reachable by sequences of good events. -/
inductive ReachableG (cfg : Config) : PoolState → Prop where
  | init : ReachableG cfg (construct cfg)
  | step (ev : Event) {st : PoolState} :
      ReachableG cfg st → GoodEvent st ev →
      ReachableG cfg (stepFn cfg ev st).1

/-- Number of create-and-connect operations recorded in a trace. -/
def createdCount (os : List Obs) : Nat :=
  os.countP (fun o => match o with
    | Obs.createdConn _ => true
    | _ => false)

/-- Modelled from the spec (section 4.4), for comparison with the code:
the buffering shortfall the spec prescribes, shortfall = max(0, buffer -
currentFreeCount) clamped so currentTotal + shortfall stays within
maxConnectionLimit (truncated Nat subtraction realizes the max(0, _)). -/
def specBufferShortfall (cfg : Config) (st : PoolState) : Nat :=
  min (cfg.connectionBuffer - st.freeConnections.length)
    (cfg.maxConnectionLimit - st.connections.length)

/-! ## Concrete configurations and traces used by witnesses and
counterexamples -/

/-- A plain configuration: no buffering, no decay, max 10, queue limit 5. -/
def cfgA : Config :=
  { bufferOnConstruct := false, connectionBuffer := 0, connectionDecay := 0,
    maxConnectionLimit := 10, minConnectionLimit := 0, queueLimit := 5,
    scaleInterval := 0 }

/-- A one-connection pool with a one-slot queue. -/
def cfgB : Config :=
  { bufferOnConstruct := false, connectionBuffer := 0, connectionDecay := 0,
    maxConnectionLimit := 1, minConnectionLimit := 0, queueLimit := 1,
    scaleInterval := 0 }

/-- A one-connection pool with buffering configured. -/
def cfgC7 : Config :=
  { bufferOnConstruct := false, connectionBuffer := 5, connectionDecay := 0,
    maxConnectionLimit := 1, minConnectionLimit := 0, queueLimit := 1,
    scaleInterval := 0 }

/-- A pool with buffer 5 and max 10 and no queue. -/
def cfgC8 : Config :=
  { bufferOnConstruct := false, connectionBuffer := 5, connectionDecay := 0,
    maxConnectionLimit := 10, minConnectionLimit := 0, queueLimit := 0,
    scaleInterval := 0 }

/-- A pool with decay 100, scan interval set and a floor of one
connection. -/
def cfgC9 : Config :=
  { bufferOnConstruct := false, connectionBuffer := 0, connectionDecay := 100,
    maxConnectionLimit := 10, minConnectionLimit := 1, queueLimit := 0,
    scaleInterval := 1 }

/-- A buffering-on-construct pool for the max-bound witness. -/
def cfgW : Config :=
  { bufferOnConstruct := true, connectionBuffer := 2, connectionDecay := 100,
    maxConnectionLimit := 3, minConnectionLimit := 1, queueLimit := 2,
    scaleInterval := 50 }

/-- Trace for the C1 counterexample: a query creates and uses connection 0,
the connection becomes free, a getConnection caller obtains it (the free set
is not shrunk), a second query claims it, the caller destroys it mid-query
(purge), and then the query completes: the completion release re-inserts the
purged connection into the free set. -/
def evsC1 : List Event :=
  [Event.doQuery 1, Event.connectFinish 0 true 2, Event.queryFinish 0 3,
   Event.getConn, Event.doQuery 4, Event.purge 0, Event.queryFinish 0 5]

def stC1 : PoolState := runEvents cfgA (construct cfgA) evsC1

/-- State with one busy connection (mid-query) and one queued query. -/
def stC4 : PoolState := runEvents cfgB (construct cfgB)
  [Event.doQuery 1, Event.connectFinish 0 true 2, Event.doQuery 3]

/-- State with a single free connection. -/
def stC5 : PoolState := runEvents cfgA (construct cfgA)
  [Event.doQuery 1, Event.connectFinish 0 true 2, Event.queryFinish 0 3]

/-- State of the buffering-configured one-connection pool with one busy
connection (mid-query) and one queued query. -/
def stC7 : PoolState := runEvents cfgC7 (construct cfgC7)
  [Event.doQuery 1, Event.connectFinish 0 true 2, Event.doQuery 3]

/-- State with two free connections (out of max 10). -/
def stC8 : PoolState := runEvents cfgC8 (construct cfgC8)
  [Event.getConn, Event.getConn, Event.connectFinish 0 true 1,
   Event.connectFinish 1 true 2]

/-- State with two free connections: connection 0 last queried at time 10,
connection 1 never queried, in free-set order [0, 1]. -/
def stC9 : PoolState := runEvents cfgC9 (construct cfgC9)
  [Event.getConn, Event.getConn, Event.connectFinish 0 true 1,
   Event.doQuery 10, Event.queryFinish 0 11, Event.connectFinish 1 true 12]

/-- State with connection 0 mid-handshake for a query and one queued
query. -/
def stC10 : PoolState := runEvents cfgB (construct cfgB)
  [Event.doQuery 1, Event.doQuery 2]

/-- A closed pool state. -/
def stClosed : PoolState :=
  (stepFn cfgA Event.closePool (construct cfgA)).1

/-! ## Basic facts about the set helpers -/

theorem mem_sAdd {s : List Nat} {c a : Nat} :
    a ∈ sAdd s c ↔ a ∈ s ∨ a = c := by
  unfold sAdd
  split
  · constructor
    · exact fun h => Or.inl h
    · rintro (h | rfl) <;> [exact h; assumption]
  · simp

theorem mem_sAdd_self {s : List Nat} {c : Nat} : c ∈ sAdd s c :=
  mem_sAdd.2 (Or.inr rfl)

theorem mem_sAdd_of_mem {s : List Nat} {c a : Nat} (h : a ∈ s) :
    a ∈ sAdd s c := mem_sAdd.2 (Or.inl h)

theorem sAdd_nodup {s : List Nat} {c : Nat} (h : s.Nodup) :
    (sAdd s c).Nodup := by
  unfold sAdd
  split
  · exact h
  · simp_all [List.nodup_append]

theorem length_sAdd_le (s : List Nat) (c : Nat) :
    (sAdd s c).length ≤ s.length + 1 := by
  unfold sAdd
  split <;> simp

theorem mem_of_mem_sRemove {s : List Nat} {c a : Nat}
    (h : a ∈ sRemove s c) : a ∈ s := List.mem_of_mem_erase h

theorem mem_sRemove_of_nodup {s : List Nat} {c a : Nat} (hs : s.Nodup) :
    a ∈ sRemove s c ↔ a ≠ c ∧ a ∈ s := hs.mem_erase_iff

theorem sRemove_nodup {s : List Nat} {c : Nat} (h : s.Nodup) :
    (sRemove s c).Nodup := h.erase c

theorem length_sRemove_le (s : List Nat) (c : Nat) :
    (sRemove s c).length ≤ s.length :=
  (List.erase_sublist c s).length_le

theorem not_mem_sRemove_self {s : List Nat} {c : Nat} (hs : s.Nodup) :
    c ∉ sRemove s c := by
  intro h
  exact ((mem_sRemove_of_nodup hs).1 h).1 rfl

/-! ## The connection-membership invariant

FullInv collects the structural facts about the three connection
collections: they are duplicate-free, busy and free are disjoint subsets of
the all-connections set which together cover it, and every member is below
the freshness counter. -/

structure FullInv (st : PoolState) : Prop where
  ndC : st.connections.Nodup
  ndB : st.busyConnections.Nodup
  ndF : st.freeConnections.Nodup
  freshC : ∀ c ∈ st.connections, c < st.nextConn
  freshB : ∀ c ∈ st.busyConnections, c < st.nextConn
  freshF : ∀ c ∈ st.freeConnections, c < st.nextConn
  subB : ∀ c ∈ st.busyConnections, c ∈ st.connections
  subF : ∀ c ∈ st.freeConnections, c ∈ st.connections
  disj : ∀ c ∈ st.busyConnections, c ∉ st.freeConnections
  cover : ∀ c ∈ st.connections,
    c ∈ st.busyConnections ∨ c ∈ st.freeConnections

theorem fullInv_initState : FullInv initState := by
  constructor <;> simp [initState]

/-! ## Characterization of the synchronous getConnection executor -/

theorem getConnection_closed {cfg : Config} {k : PendKind} {st : PoolState}
    (h : st.closed = true) : getConnection cfg k st = (st, GetR.closedErr) := by
  simp [getConnection, h]

theorem getConnection_free {cfg : Config} {k : PendKind} {st : PoolState}
    {c : Nat} {l : List Nat} (hcl : st.closed = false)
    (h : st.freeConnections = c :: l) :
    getConnection cfg k st = (st, GetR.resolved c) := by
  simp [getConnection, hcl, h]

theorem getConnection_create {cfg : Config} {k : PendKind} {st : PoolState}
    (hcl : st.closed = false) (hf : st.freeConnections = [])
    (hlen : st.connections.length < cfg.maxConnectionLimit) :
    getConnection cfg k st =
      ({ st with connections := sAdd st.connections st.nextConn,
                 busyConnections := sAdd st.busyConnections st.nextConn,
                 pendingConnect := st.pendingConnect ++ [(st.nextConn, k)],
                 nextConn := st.nextConn + 1 }, GetR.created st.nextConn) := by
  simp [getConnection, hcl, hf, hlen]

theorem getConnection_cap {cfg : Config} {k : PendKind} {st : PoolState}
    (hcl : st.closed = false) (hf : st.freeConnections = [])
    (hlen : ¬ st.connections.length < cfg.maxConnectionLimit) :
    getConnection cfg k st = (st, GetR.capacityErr) := by
  simp [getConnection, hcl, hf, hlen]

/-! ## FullInv preservation by every operation -/

theorem fullInv_useConnection {st : PoolState} {c : Nat} (h : FullInv st)
    (hc : c ∈ st.connections) : FullInv (useConnection st c) := by
  unfold useConnection
  split
  · exact h
  · refine ⟨h.ndC, sAdd_nodup h.ndB, sRemove_nodup h.ndF, h.freshC, ?_, ?_,
      ?_, ?_, ?_, ?_⟩
    · intro a ha
      rcases mem_sAdd.1 ha with ha | rfl
      · exact h.freshB a ha
      · exact h.freshC a hc
    · intro a ha
      exact h.freshF a (mem_of_mem_sRemove ha)
    · intro a ha
      rcases mem_sAdd.1 ha with ha | rfl
      · exact h.subB a ha
      · exact hc
    · intro a ha
      exact h.subF a (mem_of_mem_sRemove ha)
    · intro a ha hmem
      rcases mem_sAdd.1 ha with ha | rfl
      · exact h.disj a ha (mem_of_mem_sRemove hmem)
      · exact not_mem_sRemove_self h.ndF hmem
    · intro a ha
      rcases h.cover a ha with hb | hf
      · exact Or.inl (mem_sAdd_of_mem hb)
      · by_cases hac : a = c
        · exact Or.inl (hac ▸ mem_sAdd_self)
        · exact Or.inr ((mem_sRemove_of_nodup h.ndF).2 ⟨hac, hf⟩)

theorem fullInv_removeConnection {st : PoolState} {c : Nat} (h : FullInv st) :
    FullInv (removeConnection st c) := by
  unfold removeConnection
  split
  · exact h
  · refine ⟨sRemove_nodup h.ndC, sRemove_nodup h.ndB, sRemove_nodup h.ndF,
      ?_, ?_, ?_, ?_, ?_, ?_, ?_⟩
    · intro a ha; exact h.freshC a (mem_of_mem_sRemove ha)
    · intro a ha; exact h.freshB a (mem_of_mem_sRemove ha)
    · intro a ha; exact h.freshF a (mem_of_mem_sRemove ha)
    · intro a ha
      rcases (mem_sRemove_of_nodup h.ndB).1 ha with ⟨hne, hmem⟩
      exact (mem_sRemove_of_nodup h.ndC).2 ⟨hne, h.subB a hmem⟩
    · intro a ha
      rcases (mem_sRemove_of_nodup h.ndF).1 ha with ⟨hne, hmem⟩
      exact (mem_sRemove_of_nodup h.ndC).2 ⟨hne, h.subF a hmem⟩
    · intro a ha hmem
      exact h.disj a (mem_of_mem_sRemove ha) (mem_of_mem_sRemove hmem)
    · intro a ha
      rcases (mem_sRemove_of_nodup h.ndC).1 ha with ⟨hne, hmem⟩
      rcases h.cover a hmem with hb | hf
      · exact Or.inl ((mem_sRemove_of_nodup h.ndB).2 ⟨hne, hb⟩)
      · exact Or.inr ((mem_sRemove_of_nodup h.ndF).2 ⟨hne, hf⟩)

theorem fullInv_createdState {st : PoolState} {k : PendKind}
    (h : FullInv st) :
    FullInv { st with connections := sAdd st.connections st.nextConn,
                      busyConnections := sAdd st.busyConnections st.nextConn,
                      pendingConnect := st.pendingConnect ++ [(st.nextConn, k)],
                      nextConn := st.nextConn + 1 } := by
  refine ⟨sAdd_nodup h.ndC, sAdd_nodup h.ndB, h.ndF, ?_, ?_, ?_,
    ?_, ?_, ?_, ?_⟩
  · intro a ha
    rcases mem_sAdd.1 ha with ha | rfl
    · exact Nat.lt_succ_of_lt (h.freshC a ha)
    · exact Nat.lt_succ_self _
  · intro a ha
    rcases mem_sAdd.1 ha with ha | rfl
    · exact Nat.lt_succ_of_lt (h.freshB a ha)
    · exact Nat.lt_succ_self _
  · intro a ha
    exact Nat.lt_succ_of_lt (h.freshF a ha)
  · intro a ha
    rcases mem_sAdd.1 ha with ha | rfl
    · exact mem_sAdd_of_mem (h.subB a ha)
    · exact mem_sAdd_self
  · intro a ha
    exact mem_sAdd_of_mem (h.subF a ha)
  · intro a ha
    rcases mem_sAdd.1 ha with ha | rfl
    · exact h.disj a ha
    · intro hmem
      exact lt_irrefl _ (h.freshF _ hmem)
  · intro a ha
    rcases mem_sAdd.1 ha with ha | rfl
    · rcases h.cover a ha with hb | hff
      · exact Or.inl (mem_sAdd_of_mem hb)
      · exact Or.inr hff
    · exact Or.inl mem_sAdd_self

theorem fullInv_getConnection {cfg : Config} {k : PendKind} {st : PoolState}
    (h : FullInv st) : FullInv (getConnection cfg k st).1 := by
  by_cases hcl : st.closed
  · rw [getConnection_closed hcl]; exact h
  · rw [Bool.not_eq_true] at hcl
    cases hf : st.freeConnections with
    | cons c l => rw [getConnection_free hcl hf]; exact h
    | nil =>
      by_cases hlen : st.connections.length < cfg.maxConnectionLimit
      · rw [getConnection_create hcl hf hlen]
        exact fullInv_createdState h
      · rw [getConnection_cap hcl hf hlen]; exact h

theorem fullInv_startQuery {st : PoolState} {c now : Nat} (h : FullInv st) :
    FullInv (startQuery st c now) :=
  ⟨h.ndC, h.ndB, h.ndF, h.freshC, h.freshB, h.freshF, h.subB, h.subF,
   h.disj, h.cover⟩

theorem fullInv_bufferLoop {cfg : Config} {st : PoolState} (n : Nat)
    (h : FullInv st) : FullInv (bufferLoop cfg n st).1 := by
  induction n generalizing st with
  | zero => exact h
  | succ n ih => exact ih (fullInv_getConnection h)

theorem fullInv_maybeBuffer {cfg : Config} {st : PoolState} (h : FullInv st) :
    FullInv (maybeBufferConnection cfg st).1 := by
  unfold maybeBufferConnection
  have h1 : FullInv { st with bufferRuns := st.bufferRuns + 1 } :=
    ⟨h.ndC, h.ndB, h.ndF, h.freshC, h.freshB, h.freshF, h.subB, h.subF,
     h.disj, h.cover⟩
  dsimp only
  split
  · exact fullInv_bufferLoop _ h1
  · exact h1

theorem fullInv_queryRun {cfg : Config} {now : Nat} {st : PoolState}
    {rq : Option Nat} (h : FullInv st) : FullInv (queryRun cfg now st rq).1 := by
  unfold queryRun
  split
  · exact h
  · split
    · split
      · exact ⟨h.ndC, h.ndB, h.ndF, h.freshC, h.freshB, h.freshF, h.subB,
          h.subF, h.disj, h.cover⟩
      · exact h
    · rename_i hcl hbranch
      rw [Bool.not_eq_true] at hcl
      cases hf : st.freeConnections with
      | nil =>
        by_cases hlen : st.connections.length < cfg.maxConnectionLimit
        · rw [getConnection_create hcl hf hlen]
          exact fullInv_createdState h
        · exact absurd ⟨by simp [hf], Nat.le_of_not_lt hlen⟩ hbranch
      | cons c l =>
        rw [getConnection_free hcl hf]
        exact fullInv_startQuery (fullInv_maybeBuffer
          (fullInv_useConnection h (h.subF c (by simp [hf]))))

theorem fullInv_releasedState {st : PoolState} {c : Nat} (h : FullInv st)
    (hc : c ∈ st.connections) :
    FullInv (releasedState st c) := by
  unfold releasedState
  refine ⟨h.ndC, sRemove_nodup h.ndB, sAdd_nodup h.ndF, h.freshC, ?_, ?_,
    ?_, ?_, ?_, ?_⟩
  · intro a ha
    exact h.freshB a (mem_of_mem_sRemove ha)
  · intro a ha
    rcases mem_sAdd.1 ha with ha | rfl
    · exact h.freshF a ha
    · exact h.freshC a hc
  · intro a ha
    exact h.subB a (mem_of_mem_sRemove ha)
  · intro a ha
    rcases mem_sAdd.1 ha with ha | rfl
    · exact h.subF a ha
    · exact hc
  · intro a ha hmem
    rcases (mem_sRemove_of_nodup h.ndB).1 ha with ⟨hne, hb⟩
    rcases mem_sAdd.1 hmem with hmem | rfl
    · exact h.disj a hb hmem
    · exact hne rfl
  · intro a ha
    rcases h.cover a ha with hb | hf
    · by_cases hac : a = c
      · exact Or.inr (hac ▸ mem_sAdd_self)
      · exact Or.inl ((mem_sRemove_of_nodup h.ndB).2 ⟨hac, hb⟩)
    · exact Or.inr (mem_sAdd_of_mem hf)

theorem fullInv_releaseConnection {cfg : Config} {now : Nat} {st : PoolState}
    {c : Nat} (h : FullInv st) (hc : c ∈ st.connections) :
    FullInv (releaseConnection cfg now st c).1 := by
  unfold releaseConnection
  dsimp only
  split
  · exact h
  · split
    · exact fullInv_queryRun (fullInv_releasedState h hc)
    · exact fullInv_releasedState h hc

/-! ## Membership in the all-connections set is preserved by the
acquisition chains (they only ever add connections) -/

theorem useConnection_connections (st : PoolState) (c : Nat) :
    (useConnection st c).connections = st.connections := by
  unfold useConnection; split <;> rfl

theorem startQuery_connections (st : PoolState) (c now : Nat) :
    (startQuery st c now).connections = st.connections := rfl

theorem conns_mono_getConnection {cfg : Config} {k : PendKind}
    {st : PoolState} {a : Nat} (hm : a ∈ st.connections) :
    a ∈ (getConnection cfg k st).1.connections := by
  by_cases hcl : st.closed
  · rw [getConnection_closed hcl]; exact hm
  · rw [Bool.not_eq_true] at hcl
    cases hf : st.freeConnections with
    | cons c l => rw [getConnection_free hcl hf]; exact hm
    | nil =>
      by_cases hlen : st.connections.length < cfg.maxConnectionLimit
      · rw [getConnection_create hcl hf hlen]
        exact mem_sAdd_of_mem hm
      · rw [getConnection_cap hcl hf hlen]; exact hm

theorem conns_mono_bufferLoop {cfg : Config} {st : PoolState} {a : Nat}
    (n : Nat) (hm : a ∈ st.connections) :
    a ∈ (bufferLoop cfg n st).1.connections := by
  induction n generalizing st with
  | zero => exact hm
  | succ n ih => exact ih (conns_mono_getConnection hm)

theorem conns_mono_maybeBuffer {cfg : Config} {st : PoolState} {a : Nat}
    (hm : a ∈ st.connections) :
    a ∈ (maybeBufferConnection cfg st).1.connections := by
  unfold maybeBufferConnection
  dsimp only
  split
  · exact conns_mono_bufferLoop _ hm
  · exact hm

theorem conns_mono_queryRun {cfg : Config} {now : Nat} {st : PoolState}
    {rq : Option Nat} {a : Nat} (hm : a ∈ st.connections) :
    a ∈ (queryRun cfg now st rq).1.connections := by
  unfold queryRun
  split
  · exact hm
  · split
    · split
      · exact hm
      · exact hm
    · rename_i hcl hbranch
      rw [Bool.not_eq_true] at hcl
      cases hf : st.freeConnections with
      | nil =>
        by_cases hlen : st.connections.length < cfg.maxConnectionLimit
        · rw [getConnection_create hcl hf hlen]
          exact mem_sAdd_of_mem hm
        · exact absurd ⟨by simp [hf], Nat.le_of_not_lt hlen⟩ hbranch
      | cons c l =>
        rw [getConnection_free hcl hf]
        show a ∈ (startQuery (maybeBufferConnection cfg
          (useConnection st c)).1 c now).connections
        rw [startQuery_connections]
        exact conns_mono_maybeBuffer (by rw [useConnection_connections]; exact hm)

theorem conns_mono_releaseConnection {cfg : Config} {now : Nat}
    {st : PoolState} {c a : Nat} (hm : a ∈ st.connections) :
    a ∈ (releaseConnection cfg now st c).1.connections := by
  unfold releaseConnection
  dsimp only
  split
  · exact hm
  · split
    · exact conns_mono_queryRun hm
    · exact hm

/-! ## FullInv preservation by the completion handlers and the scanner -/

theorem fullInv_connectDone {cfg : Config} {now c : Nat} {ok : Bool}
    {st : PoolState} (h : FullInv st)
    (hc : c ∈ st.connections ∨ lookupPending st c = none) :
    FullInv (connectDone cfg now c ok st).1 := by
  unfold connectDone
  cases hlk : lookupPending st c with
  | none => exact h
  | some kind =>
    rcases hc with hc | hc
    · dsimp only
      have h0 : FullInv (erasePend st c) :=
        ⟨h.ndC, h.ndB, h.ndF, h.freshC, h.freshB, h.freshF, h.subB, h.subF,
         h.disj, h.cover⟩
      have hinv1 := @fullInv_releaseConnection cfg now (erasePend st c) c
        h0 hc
      have hmem1 := @conns_mono_releaseConnection cfg now (erasePend st c)
        c c hc
      split
      · exact hinv1
      · split
        · exact fullInv_removeConnection hinv1
        · match kind with
          | PendKind.caller => exact hinv1
          | PendKind.buffer => exact hinv1
          | PendKind.forQuery =>
            exact fullInv_startQuery (fullInv_maybeBuffer
              (fullInv_useConnection hinv1 hmem1))
    · rw [hlk] at hc; cases hc

theorem fullInv_queryDone {cfg : Config} {now c : Nat} {st : PoolState}
    (h : FullInv st) (hc : c ∈ st.connections ∨ c ∉ st.inFlight) :
    FullInv (queryDone cfg now c st).1 := by
  unfold queryDone
  split
  · rename_i hmem
    rcases hc with hc | hc
    · exact @fullInv_releaseConnection cfg now
        { st with inFlight := st.inFlight.erase c } c
        ⟨h.ndC, h.ndB, h.ndF, h.freshC, h.freshB, h.freshF, h.subB, h.subF,
         h.disj, h.cover⟩ hc
    · exact absurd hmem hc
  · exact h

theorem fullInv_foldl_remove {st : PoolState} (l : List Nat) (h : FullInv st) :
    FullInv (l.foldl removeConnection st) := by
  induction l generalizing st with
  | nil => exact h
  | cons a l ih => exact ih (fullInv_removeConnection h)

theorem fullInv_onScaleInterval {cfg : Config} {now : Nat} {st : PoolState}
    (h : FullInv st) : FullInv (onScaleInterval cfg now st) := by
  unfold onScaleInterval
  split
  · exact h
  · dsimp only
    split
    · exact h
    · exact fullInv_foldl_remove _ h

theorem fullInv_onEnd (st : PoolState) : FullInv (onEnd st) := by
  constructor <;> simp [onEnd]

theorem fullInv_step {cfg : Config} (ev : Event) {st : PoolState}
    (h : FullInv st) (hg : GoodEvent st ev) : FullInv (stepFn cfg ev st).1 := by
  cases ev with
  | getConn => exact fullInv_getConnection h
  | doQuery now => exact fullInv_queryRun h
  | connectFinish c ok now => exact fullInv_connectDone h hg
  | queryFinish c now => exact fullInv_queryDone h hg
  | release c now =>
    show FullInv (if c ∈ st.connections then releaseConnection cfg now st c
      else (st, [])).1
    split
    · exact fullInv_releaseConnection h (by assumption)
    · exact h
  | purge c =>
    show FullInv (if c ∈ st.connections then (removeConnection st c, [])
      else (st, [])).1
    split
    · exact fullInv_removeConnection h
    · exact h
  | bufferTick =>
    show FullInv (if st.closed = true then (st, ([] : List Obs))
      else maybeBufferConnection cfg st).1
    split
    · exact h
    · exact fullInv_maybeBuffer h
  | scaleTick now =>
    show FullInv (if st.closed = false ∧ cfg.scaleInterval ≠ 0 ∧
        cfg.connectionDecay ≠ 0 then (onScaleInterval cfg now st, ([] : List Obs))
      else (st, [])).1
    split
    · exact fullInv_onScaleInterval h
    · exact h
  | closePool => exact fullInv_onEnd st

theorem fullInv_construct (cfg : Config) : FullInv (construct cfg) := by
  unfold construct
  split
  · exact fullInv_maybeBuffer fullInv_initState
  · exact fullInv_initState

theorem fullInv_reachG {cfg : Config} {st : PoolState}
    (h : ReachableG cfg st) : FullInv st := by
  induction h with
  | init => exact fullInv_construct cfg
  | step ev hr hg ih => exact fullInv_step ev ih hg

/-- From FullInv, the all-connections set is the disjoint union of busy and
free, so the lengths add up. -/
theorem fullInv_length_eq {st : PoolState} (h : FullInv st) :
    st.connections.length =
      st.busyConnections.length + st.freeConnections.length := by
  have hdisj : st.busyConnections.Disjoint st.freeConnections := by
    intro a ha hb
    exact h.disj a ha hb
  have hnd : (st.busyConnections ++ st.freeConnections).Nodup :=
    h.ndB.append h.ndF hdisj
  have hperm : List.Perm st.connections
      (st.busyConnections ++ st.freeConnections) := by
    rw [List.perm_ext_iff_of_nodup h.ndC hnd]
    intro a
    constructor
    · intro ha
      rcases h.cover a ha with hb | hf
      · exact List.mem_append.2 (Or.inl hb)
      · exact List.mem_append.2 (Or.inr hf)
    · intro ha
      rcases List.mem_append.1 ha with hb | hf
      · exact h.subB a hb
      · exact h.subF a hf
  calc st.connections.length
      = (st.busyConnections ++ st.freeConnections).length := hperm.length_eq
    _ = st.busyConnections.length + st.freeConnections.length := by
        simp

/-! ## Field-tracking lemmas: the closed flag, the query queue, the
connection count and the bufferRuns ghost counter across each operation -/

theorem useConnection_fields (st : PoolState) (c : Nat) :
    (useConnection st c).closed = st.closed ∧
    (useConnection st c).queryQueue = st.queryQueue ∧
    (useConnection st c).bufferRuns = st.bufferRuns := by
  unfold useConnection; split <;> exact ⟨rfl, rfl, rfl⟩

theorem removeConnection_fields (st : PoolState) (c : Nat) :
    (removeConnection st c).closed = st.closed ∧
    (removeConnection st c).queryQueue = st.queryQueue ∧
    (removeConnection st c).bufferRuns = st.bufferRuns ∧
    (removeConnection st c).connections.length ≤ st.connections.length := by
  unfold removeConnection
  split
  · exact ⟨rfl, rfl, rfl, le_refl _⟩
  · exact ⟨rfl, rfl, rfl, length_sRemove_le _ _⟩

theorem getConnection_fields (cfg : Config) (k : PendKind) (st : PoolState) :
    (getConnection cfg k st).1.closed = st.closed ∧
    (getConnection cfg k st).1.queryQueue = st.queryQueue ∧
    (getConnection cfg k st).1.bufferRuns = st.bufferRuns ∧
    (getConnection cfg k st).1.freeConnections = st.freeConnections := by
  by_cases hcl : st.closed
  · rw [getConnection_closed hcl]; exact ⟨rfl, rfl, rfl, rfl⟩
  · rw [Bool.not_eq_true] at hcl
    cases hf : st.freeConnections with
    | cons c l =>
      rw [getConnection_free hcl hf]; exact ⟨rfl, rfl, rfl, hf⟩
    | nil =>
      by_cases hlen : st.connections.length < cfg.maxConnectionLimit
      · rw [getConnection_create hcl hf hlen]; exact ⟨rfl, rfl, rfl, hf⟩
      · rw [getConnection_cap hcl hf hlen]; exact ⟨rfl, rfl, rfl, hf⟩

theorem connsLen_getConnection {cfg : Config} {k : PendKind} {st : PoolState}
    (h : st.connections.length ≤ cfg.maxConnectionLimit) :
    (getConnection cfg k st).1.connections.length ≤ cfg.maxConnectionLimit := by
  by_cases hcl : st.closed
  · rw [getConnection_closed hcl]; exact h
  · rw [Bool.not_eq_true] at hcl
    cases hf : st.freeConnections with
    | cons c l => rw [getConnection_free hcl hf]; exact h
    | nil =>
      by_cases hlen : st.connections.length < cfg.maxConnectionLimit
      · rw [getConnection_create hcl hf hlen]
        exact le_trans (length_sAdd_le _ _) hlen
      · rw [getConnection_cap hcl hf hlen]; exact h

theorem bufferLoop_fields (cfg : Config) (n : Nat) (st : PoolState) :
    (bufferLoop cfg n st).1.closed = st.closed ∧
    (bufferLoop cfg n st).1.queryQueue = st.queryQueue ∧
    (bufferLoop cfg n st).1.bufferRuns = st.bufferRuns := by
  induction n generalizing st with
  | zero => exact ⟨rfl, rfl, rfl⟩
  | succ n ih =>
    have hg := getConnection_fields cfg PendKind.buffer st
    have hi := ih (getConnection cfg PendKind.buffer st).1
    exact ⟨hi.1.trans hg.1, hi.2.1.trans hg.2.1, hi.2.2.trans hg.2.2.1⟩

theorem connsLen_bufferLoop {cfg : Config} {st : PoolState} (n : Nat)
    (h : st.connections.length ≤ cfg.maxConnectionLimit) :
    (bufferLoop cfg n st).1.connections.length ≤ cfg.maxConnectionLimit := by
  induction n generalizing st with
  | zero => exact h
  | succ n ih => exact ih (connsLen_getConnection h)

theorem maybeBuffer_fields (cfg : Config) (st : PoolState) :
    (maybeBufferConnection cfg st).1.closed = st.closed ∧
    (maybeBufferConnection cfg st).1.queryQueue = st.queryQueue ∧
    (maybeBufferConnection cfg st).1.bufferRuns = st.bufferRuns + 1 := by
  unfold maybeBufferConnection
  dsimp only
  split
  · have hb := bufferLoop_fields cfg
      (if cfg.maxConnectionLimit <
          st.connections.length + cfg.connectionBuffer then
        cfg.maxConnectionLimit - st.connections.length
      else if st.freeConnections.length ≠ 0 then
        cfg.connectionBuffer - st.freeConnections.length
      else cfg.connectionBuffer)
      { st with bufferRuns := st.bufferRuns + 1 }
    exact ⟨hb.1, hb.2.1, hb.2.2⟩
  · exact ⟨rfl, rfl, rfl⟩

theorem connsLen_maybeBuffer {cfg : Config} {st : PoolState}
    (h : st.connections.length ≤ cfg.maxConnectionLimit) :
    (maybeBufferConnection cfg st).1.connections.length ≤
      cfg.maxConnectionLimit := by
  unfold maybeBufferConnection
  dsimp only
  split
  · exact connsLen_bufferLoop _ h
  · exact h

theorem startQuery_fields (st : PoolState) (c now : Nat) :
    (startQuery st c now).closed = st.closed ∧
    (startQuery st c now).queryQueue = st.queryQueue ∧
    (startQuery st c now).bufferRuns = st.bufferRuns :=
  ⟨rfl, rfl, rfl⟩

/-- Behaviour of queryRun on the non-queue branches: the closed flag is
never changed, the queue only grows by the guarded enqueue, and bufferRuns
increments exactly when a connection is claimed from the free set. -/
theorem queryRun_closed (cfg : Config) (now : Nat) (st : PoolState)
    (rq : Option Nat) : (queryRun cfg now st rq).1.closed = st.closed := by
  unfold queryRun
  split
  · rfl
  · split
    · split <;> rfl
    · rename_i hcl hbranch
      rw [Bool.not_eq_true] at hcl
      cases hf : st.freeConnections with
      | nil =>
        by_cases hlen : st.connections.length < cfg.maxConnectionLimit
        · rw [getConnection_create hcl hf hlen]
        · exact absurd ⟨by simp [hf], Nat.le_of_not_lt hlen⟩ hbranch
      | cons c l =>
        rw [getConnection_free hcl hf]
        show (startQuery (maybeBufferConnection cfg
          (useConnection st c)).1 c now).closed = st.closed
        rw [(startQuery_fields _ _ _).1, (maybeBuffer_fields _ _).1,
          (useConnection_fields _ _).1]

theorem queueLen_queryRun {cfg : Config} {now : Nat} {st : PoolState}
    {rq : Option Nat}
    (h : st.queryQueue.length ≤ cfg.queueLimit) :
    (queryRun cfg now st rq).1.queryQueue.length ≤ cfg.queueLimit := by
  unfold queryRun
  split
  · exact h
  · split
    · split
      · rename_i hlt
        simpa using hlt
      · exact h
    · rename_i hcl hbranch
      rw [Bool.not_eq_true] at hcl
      cases hf : st.freeConnections with
      | nil =>
        by_cases hlen : st.connections.length < cfg.maxConnectionLimit
        · rw [getConnection_create hcl hf hlen]; exact h
        · exact absurd ⟨by simp [hf], Nat.le_of_not_lt hlen⟩ hbranch
      | cons c l =>
        rw [getConnection_free hcl hf]
        show (startQuery (maybeBufferConnection cfg
          (useConnection st c)).1 c now).queryQueue.length ≤ cfg.queueLimit
        rw [(startQuery_fields _ _ _).2.1, (maybeBuffer_fields _ _).2.1,
          (useConnection_fields _ _).2.1]
        exact h

theorem connsLen_queryRun {cfg : Config} {now : Nat} {st : PoolState}
    {rq : Option Nat}
    (h : st.connections.length ≤ cfg.maxConnectionLimit) :
    (queryRun cfg now st rq).1.connections.length ≤
      cfg.maxConnectionLimit := by
  unfold queryRun
  split
  · exact h
  · split
    · split
      · exact h
      · exact h
    · rename_i hcl hbranch
      rw [Bool.not_eq_true] at hcl
      cases hf : st.freeConnections with
      | nil =>
        by_cases hlen : st.connections.length < cfg.maxConnectionLimit
        · rw [getConnection_create hcl hf hlen]
          exact le_trans (length_sAdd_le _ _) hlen
        · exact absurd ⟨by simp [hf], Nat.le_of_not_lt hlen⟩ hbranch
      | cons c l =>
        rw [getConnection_free hcl hf]
        show (startQuery (maybeBufferConnection cfg
          (useConnection st c)).1 c now).connections.length ≤
            cfg.maxConnectionLimit
        rw [startQuery_connections]
        have hu : (useConnection st c).connections.length ≤
            cfg.maxConnectionLimit := by
          rw [useConnection_connections]; exact h
        exact connsLen_maybeBuffer hu

theorem releaseConnection_closed (cfg : Config) (now : Nat) (st : PoolState)
    (c : Nat) : (releaseConnection cfg now st c).1.closed = st.closed := by
  unfold releaseConnection
  dsimp only
  split
  · rfl
  · split
    · exact queryRun_closed cfg now _ _
    · rfl

theorem queueLen_releaseConnection {cfg : Config} {now : Nat}
    {st : PoolState} {c : Nat}
    (h : st.queryQueue.length ≤ cfg.queueLimit) :
    (releaseConnection cfg now st c).1.queryQueue.length ≤ cfg.queueLimit := by
  unfold releaseConnection
  dsimp only
  split
  · exact h
  · split
    · exact queueLen_queryRun h
    · exact h

theorem connsLen_releaseConnection {cfg : Config} {now : Nat}
    {st : PoolState} {c : Nat}
    (h : st.connections.length ≤ cfg.maxConnectionLimit) :
    (releaseConnection cfg now st c).1.connections.length ≤
      cfg.maxConnectionLimit := by
  unfold releaseConnection
  dsimp only
  split
  · exact h
  · split
    · exact connsLen_queryRun h
    · exact h

theorem queueLen_connectDone {cfg : Config} {now c : Nat} {ok : Bool}
    {st : PoolState} (h : st.queryQueue.length ≤ cfg.queueLimit) :
    (connectDone cfg now c ok st).1.queryQueue.length ≤ cfg.queueLimit := by
  unfold connectDone
  cases hlk : lookupPending st c with
  | none => exact h
  | some kind =>
    dsimp only
    have hr : (releaseConnection cfg now (erasePend st c)
        c).1.queryQueue.length ≤ cfg.queueLimit := queueLen_releaseConnection h
    split
    · exact hr
    · split
      · calc (removeConnection _ c).queryQueue.length
            = _ := by rw [(removeConnection_fields _ _).2.1]
          _ ≤ cfg.queueLimit := hr
      · match kind with
        | PendKind.caller => exact hr
        | PendKind.buffer => exact hr
        | PendKind.forQuery =>
          rw [(startQuery_fields _ _ _).2.1, (maybeBuffer_fields _ _).2.1,
            (useConnection_fields _ _).2.1]
          exact hr

theorem connsLen_connectDone {cfg : Config} {now c : Nat} {ok : Bool}
    {st : PoolState} (h : st.connections.length ≤ cfg.maxConnectionLimit) :
    (connectDone cfg now c ok st).1.connections.length ≤
      cfg.maxConnectionLimit := by
  unfold connectDone
  cases hlk : lookupPending st c with
  | none => exact h
  | some kind =>
    dsimp only
    have hr : (releaseConnection cfg now (erasePend st c)
        c).1.connections.length ≤ cfg.maxConnectionLimit :=
      connsLen_releaseConnection h
    split
    · exact hr
    · split
      · exact le_trans (removeConnection_fields _ _).2.2.2 hr
      · match kind with
        | PendKind.caller => exact hr
        | PendKind.buffer => exact hr
        | PendKind.forQuery =>
          rw [startQuery_connections]
          have hu := (useConnection_connections
            (releaseConnection cfg now (erasePend st c) c).1 c)
          exact connsLen_maybeBuffer (by rw [hu]; exact hr)

theorem queueLen_queryDone {cfg : Config} {now c : Nat} {st : PoolState}
    (h : st.queryQueue.length ≤ cfg.queueLimit) :
    (queryDone cfg now c st).1.queryQueue.length ≤ cfg.queueLimit := by
  unfold queryDone
  split
  · exact queueLen_releaseConnection h
  · exact h

theorem connsLen_queryDone {cfg : Config} {now c : Nat} {st : PoolState}
    (h : st.connections.length ≤ cfg.maxConnectionLimit) :
    (queryDone cfg now c st).1.connections.length ≤
      cfg.maxConnectionLimit := by
  unfold queryDone
  split
  · exact connsLen_releaseConnection h
  · exact h

theorem foldl_remove_fields (l : List Nat) (st : PoolState) :
    (l.foldl removeConnection st).closed = st.closed ∧
    (l.foldl removeConnection st).queryQueue = st.queryQueue ∧
    (l.foldl removeConnection st).bufferRuns = st.bufferRuns ∧
    (l.foldl removeConnection st).connections.length ≤
      st.connections.length := by
  induction l generalizing st with
  | nil => exact ⟨rfl, rfl, rfl, le_refl _⟩
  | cons a l ih =>
    have hr := removeConnection_fields st a
    have hi := ih (removeConnection st a)
    exact ⟨hi.1.trans hr.1, hi.2.1.trans hr.2.1, hi.2.2.1.trans hr.2.2.1,
      le_trans hi.2.2.2 hr.2.2.2⟩

theorem onScaleInterval_fields (cfg : Config) (now : Nat) (st : PoolState) :
    (onScaleInterval cfg now st).closed = st.closed ∧
    (onScaleInterval cfg now st).queryQueue = st.queryQueue ∧
    (onScaleInterval cfg now st).bufferRuns = st.bufferRuns ∧
    (onScaleInterval cfg now st).connections.length ≤
      st.connections.length := by
  unfold onScaleInterval
  split
  · exact ⟨rfl, rfl, rfl, le_refl _⟩
  · dsimp only
    split
    · exact ⟨rfl, rfl, rfl, le_refl _⟩
    · exact foldl_remove_fields _ st

/-! ## The two unconditional global invariants: the connection count never
exceeds maxConnectionLimit and the queue never exceeds queueLimit -/

theorem connsLen_step {cfg : Config} (ev : Event) {st : PoolState}
    (h : st.connections.length ≤ cfg.maxConnectionLimit) :
    (stepFn cfg ev st).1.connections.length ≤ cfg.maxConnectionLimit := by
  cases ev with
  | getConn => exact connsLen_getConnection h
  | doQuery now => exact connsLen_queryRun h
  | connectFinish c ok now => exact connsLen_connectDone h
  | queryFinish c now => exact connsLen_queryDone h
  | release c now =>
    show ((if c ∈ st.connections then releaseConnection cfg now st c
      else (st, [])).1.connections.length ≤ cfg.maxConnectionLimit)
    split
    · exact connsLen_releaseConnection h
    · exact h
  | purge c =>
    show ((if c ∈ st.connections then (removeConnection st c, [])
      else (st, [])).1.connections.length ≤ cfg.maxConnectionLimit)
    split
    · exact le_trans (removeConnection_fields _ _).2.2.2 h
    · exact h
  | bufferTick =>
    show ((if st.closed = true then (st, ([] : List Obs))
      else maybeBufferConnection cfg st).1.connections.length ≤
        cfg.maxConnectionLimit)
    split
    · exact h
    · exact connsLen_maybeBuffer h
  | scaleTick now =>
    show ((if st.closed = false ∧ cfg.scaleInterval ≠ 0 ∧
        cfg.connectionDecay ≠ 0 then (onScaleInterval cfg now st, ([] : List Obs))
      else (st, [])).1.connections.length ≤ cfg.maxConnectionLimit)
    split
    · exact le_trans (onScaleInterval_fields _ _ _).2.2.2 h
    · exact h
  | closePool =>
    show (onEnd st, ([] : List Obs)).1.connections.length ≤
      cfg.maxConnectionLimit
    simp [onEnd]

theorem queueLen_step {cfg : Config} (ev : Event) {st : PoolState}
    (h : st.queryQueue.length ≤ cfg.queueLimit) :
    (stepFn cfg ev st).1.queryQueue.length ≤ cfg.queueLimit := by
  cases ev with
  | getConn =>
    show ((getConnection cfg PendKind.caller st).1.queryQueue.length ≤
      cfg.queueLimit)
    rw [(getConnection_fields _ _ _).2.1]
    exact h
  | doQuery now => exact queueLen_queryRun h
  | connectFinish c ok now => exact queueLen_connectDone h
  | queryFinish c now => exact queueLen_queryDone h
  | release c now =>
    show ((if c ∈ st.connections then releaseConnection cfg now st c
      else (st, [])).1.queryQueue.length ≤ cfg.queueLimit)
    split
    · exact queueLen_releaseConnection h
    · exact h
  | purge c =>
    show ((if c ∈ st.connections then (removeConnection st c, [])
      else (st, [])).1.queryQueue.length ≤ cfg.queueLimit)
    split
    · rw [(removeConnection_fields _ _).2.1]; exact h
    · exact h
  | bufferTick =>
    show ((if st.closed = true then (st, ([] : List Obs))
      else maybeBufferConnection cfg st).1.queryQueue.length ≤ cfg.queueLimit)
    split
    · exact h
    · rw [(maybeBuffer_fields _ _).2.1]; exact h
  | scaleTick now =>
    show ((if st.closed = false ∧ cfg.scaleInterval ≠ 0 ∧
        cfg.connectionDecay ≠ 0 then (onScaleInterval cfg now st, ([] : List Obs))
      else (st, [])).1.queryQueue.length ≤ cfg.queueLimit)
    split
    · rw [(onScaleInterval_fields _ _ _).2.1]; exact h
    · exact h
  | closePool =>
    show (onEnd st, ([] : List Obs)).1.queryQueue.length ≤ cfg.queueLimit
    simp [onEnd]

theorem connsLen_reachable {cfg : Config} {st : PoolState}
    (h : Reachable cfg st) :
    st.connections.length ≤ cfg.maxConnectionLimit := by
  induction h with
  | init =>
    unfold construct
    split
    · exact connsLen_maybeBuffer (by simp [initState])
    · simp [initState]
  | step ev hr ih => exact connsLen_step ev ih

theorem queueLen_reachable {cfg : Config} {st : PoolState}
    (h : Reachable cfg st) :
    st.queryQueue.length ≤ cfg.queueLimit := by
  induction h with
  | init =>
    unfold construct
    split
    · rw [(maybeBuffer_fields _ _).2.1]; simp [initState]
    · simp [initState]
  | step ev hr ih => exact queueLen_step ev ih

/-! ## Branch-level characterization of queryRun, releaseConnection and
the buffering loop -/

theorem sAdd_nil (c : Nat) : sAdd [] c = [c] := rfl

theorem exists_head_sAdd (s : List Nat) (c : Nat) :
    ∃ d l, sAdd s c = d :: l := by
  cases s with
  | nil => exact ⟨c, [], rfl⟩
  | cons f fs =>
    unfold sAdd
    split
    · exact ⟨f, fs, rfl⟩
    · exact ⟨f, fs ++ [c], rfl⟩

theorem queryRun_closed_case {cfg : Config} {now : Nat} {st : PoolState}
    {rq : Option Nat} (hcl : st.closed = true) :
    queryRun cfg now st rq = (st, [Obs.poolClosedError]) := by
  unfold queryRun
  rw [if_pos hcl]

theorem queryRun_dispatch {cfg : Config} {now : Nat} {st : PoolState}
    {rq : Option Nat} {c : Nat} {l : List Nat} (hcl : st.closed = false)
    (hf : st.freeConnections = c :: l) :
    queryRun cfg now st rq =
      (startQuery (maybeBufferConnection cfg (useConnection st c)).1 c now,
       Obs.dispatched c rq ::
         (maybeBufferConnection cfg (useConnection st c)).2) := by
  unfold queryRun
  rw [if_neg (by simp [hcl]), if_neg (by simp [hf]),
    getConnection_free hcl hf]

theorem queryRun_create {cfg : Config} {now : Nat} {st : PoolState}
    {rq : Option Nat} (hcl : st.closed = false)
    (hf : st.freeConnections = [])
    (hlen : st.connections.length < cfg.maxConnectionLimit) :
    queryRun cfg now st rq =
      ({ st with connections := sAdd st.connections st.nextConn,
                 busyConnections := sAdd st.busyConnections st.nextConn,
                 pendingConnect :=
                   st.pendingConnect ++ [(st.nextConn, PendKind.forQuery)],
                 nextConn := st.nextConn + 1 },
       [Obs.createdConn st.nextConn]) := by
  unfold queryRun
  rw [if_neg (by simp [hcl]),
    if_neg (fun hco => absurd hlen (Nat.not_lt.2 hco.2)),
    getConnection_create hcl hf hlen]

theorem queryRun_enqueue {cfg : Config} {now : Nat} {st : PoolState}
    {rq : Option Nat} (hcl : st.closed = false)
    (hf : st.freeConnections = [])
    (hmax : cfg.maxConnectionLimit ≤ st.connections.length)
    (hlt : st.queryQueue.length < cfg.queueLimit) :
    queryRun cfg now st rq =
      ({ st with queryQueue := st.queryQueue ++ [st.nextQuery],
                 nextQuery := st.nextQuery + 1 },
       [Obs.enqueued st.nextQuery]) := by
  unfold queryRun
  rw [if_neg (by simp [hcl]), if_pos ⟨by simp [hf], hmax⟩, if_pos hlt]

theorem queryRun_full {cfg : Config} {now : Nat} {st : PoolState}
    {rq : Option Nat} (hcl : st.closed = false)
    (hf : st.freeConnections = [])
    (hmax : cfg.maxConnectionLimit ≤ st.connections.length)
    (hge : cfg.queueLimit ≤ st.queryQueue.length) :
    queryRun cfg now st rq = (st, [Obs.queueFullError]) := by
  unfold queryRun
  rw [if_neg (by simp [hcl]), if_pos ⟨by simp [hf], hmax⟩,
    if_neg (Nat.not_lt.2 hge)]

theorem releaseConnection_closed_case {cfg : Config} {now : Nat}
    {st : PoolState} {c : Nat} (hcl : st.closed = true) :
    releaseConnection cfg now st c = (st, []) := by
  unfold releaseConnection
  dsimp only
  rw [if_pos hcl]

theorem releaseConnection_no_queue {cfg : Config} {now : Nat}
    {st : PoolState} {c : Nat} (hcl : st.closed = false)
    (hq : st.queryQueue = []) :
    releaseConnection cfg now st c = (releasedState st c, []) := by
  unfold releaseConnection
  dsimp only
  rw [if_neg (by simp [hcl]), if_neg (by simp [releasedState, hq])]

theorem releaseConnection_dispatch {cfg : Config} {now : Nat}
    {st : PoolState} {c q : Nat} {qs : List Nat} (hcl : st.closed = false)
    (hq : st.queryQueue = q :: qs) :
    releaseConnection cfg now st c =
      queryRun cfg now (releasedState st c) (some q) := by
  unfold releaseConnection
  dsimp only
  rw [if_neg (by simp [hcl]),
    if_pos ⟨List.length_pos_of_mem mem_sAdd_self,
      by simp [releasedState, hq]⟩]
  congr 1
  show st.queryQueue.head? = some q
  rw [hq]
  rfl

theorem removeConnection_open {st : PoolState} {c : Nat}
    (hcl : st.closed = false) :
    removeConnection st c =
      { st with busyConnections := sRemove st.busyConnections c,
                freeConnections := sRemove st.freeConnections c,
                connections := sRemove st.connections c } := by
  unfold removeConnection
  rw [if_neg (by simp [hcl])]

theorem bufferLoop_succ (cfg : Config) (n : Nat) (st : PoolState) :
    bufferLoop cfg (n + 1) st =
      ((bufferLoop cfg n (getConnection cfg PendKind.buffer st).1).1,
       (match (getConnection cfg PendKind.buffer st).2 with
        | GetR.created c => [Obs.createdConn c]
        | _ => ([] : List Obs)) ++
       (bufferLoop cfg n (getConnection cfg PendKind.buffer st).1).2) := rfl

theorem createdCount_append (a b : List Obs) :
    createdCount (a ++ b) = createdCount a + createdCount b :=
  List.countP_append _ _ _

/-- With an empty free set and room under the limit, every buffering loop
iteration creates a connection. -/
theorem bufferLoop_count_empty {cfg : Config} (n : Nat) (st : PoolState)
    (hcl : st.closed = false) (hf : st.freeConnections = [])
    (hn : st.connections.length + n ≤ cfg.maxConnectionLimit) :
    createdCount (bufferLoop cfg n st).2 = n := by
  induction n generalizing st with
  | zero => rfl
  | succ n ih =>
    have hlen : st.connections.length < cfg.maxConnectionLimit := by omega
    rw [bufferLoop_succ, getConnection_create hcl hf hlen]
    show createdCount ([Obs.createdConn st.nextConn] ++
      (bufferLoop cfg n _).2) = n + 1
    rw [createdCount_append]
    have hrec := ih { st with
      connections := sAdd st.connections st.nextConn,
      busyConnections := sAdd st.busyConnections st.nextConn,
      pendingConnect := st.pendingConnect ++ [(st.nextConn, PendKind.buffer)],
      nextConn := st.nextConn + 1 } hcl hf ?_
    · rw [hrec]
      show 1 + n = n + 1
      omega
    · have := length_sAdd_le st.connections st.nextConn
      show (sAdd st.connections st.nextConn).length + n ≤ _
      omega

/-- With a non-empty free set, every buffering loop iteration resolves an
existing free connection and changes nothing. -/
theorem bufferLoop_stay {cfg : Config} (n : Nat) {st : PoolState}
    (hf : st.freeConnections ≠ []) :
    bufferLoop cfg n st = (st, []) := by
  induction n with
  | zero => rfl
  | succ n ih =>
    rw [bufferLoop_succ]
    by_cases hcl : st.closed
    · rw [getConnection_closed hcl]
      dsimp only
      rw [ih]
      rfl
    · rw [Bool.not_eq_true] at hcl
      cases hff : st.freeConnections with
      | nil => exact absurd hff hf
      | cons c l =>
        rw [getConnection_free hcl hff]
        dsimp only
        rw [ih]
        rfl

/-! ## Claim C1 -/

/-- Claim C1, counterexample.  The claim states that for every sequence of
pool operations (getConnection, query, releaseConnection, _purgeConnection,
buffering, decay scan) the all-connections set is the disjoint union of busy
and free.  The trace evsC1 uses only such operations and their completions:
a query runs on connection 0, a getConnection caller then obtains connection
0 while it stays in the free set, a second query claims it, the caller
destroys it mid-query (_purgeConnection), and when that query completes the
release path re-inserts the purged connection into the free set: the
resulting reachable state has zero connections in the all-connections set
but one in the free set, so the size equation fails. -/
theorem c1_counterexample :
    stC1.connections.length = 0 ∧
    stC1.busyConnections.length + stC1.freeConnections.length = 1 := by
  constructor <;> rfl

/-- Claim C1, amended: for every sequence of pool operations in which no
release (explicit, or implicit in a handshake or query completion) acts on a
connection that has already been purged from the all-connections set, at
every observable point the all-connections set is the disjoint union of the
busy and free sets: the sizes add up and no connection is in both. -/
theorem c1_partition_invariant {cfg : Config} {st : PoolState}
    (h : ReachableG cfg st) :
    st.connections.length =
      st.busyConnections.length + st.freeConnections.length ∧
    ∀ c ∈ st.busyConnections, c ∉ st.freeConnections := by
  have hInv := fullInv_reachG h
  exact ⟨fullInv_length_eq hInv, hInv.disj⟩

/-- Claim C1, witness: the amended invariant evaluated on the state after a
construction and one query admission. -/
theorem c1_partition_invariant_witness :
    (stepFn cfgA (Event.doQuery 1) (construct cfgA)).1.connections.length =
      (stepFn cfgA (Event.doQuery 1) (construct cfgA)).1.busyConnections.length +
      (stepFn cfgA (Event.doQuery 1) (construct cfgA)).1.freeConnections.length :=
  (c1_partition_invariant
    (ReachableG.step (Event.doQuery 1) ReachableG.init trivial)).1

/-! ## Claim C3 -/

/-- Claim C3: at every point in every sequence of pool operations the size
of the all-connections set is at most maxConnectionLimit; every creation
path, buffering included, creates only when the total is strictly below the
limit. -/
theorem c3_max_connection_bound {cfg : Config} {st : PoolState}
    (h : Reachable cfg st) :
    st.connections.length ≤ cfg.maxConnectionLimit :=
  connsLen_reachable h

/-- Claim C3, witness: a buffering-on-construct pool (buffer 2, max 3) after
one query admission sits exactly at the limit and within the bound. -/
theorem c3_max_connection_bound_witness :
    (stepFn cfgW (Event.doQuery 1) (construct cfgW)).1.connections.length ≤
      cfgW.maxConnectionLimit ∧
    (stepFn cfgW (Event.doQuery 1) (construct cfgW)).1.connections.length = 3 :=
  ⟨c3_max_connection_bound (Reachable.step (Event.doQuery 1) Reachable.init),
   by rfl⟩

/-! ## Claim C4 -/

/-- Claim C4: the claim states that a connection-release event on a pool
with a non-empty queue removes the oldest queued query from the queue (queue
size decreases by one) and dispatches it.  In the code, dollar-first calls
set.delete on the iterator result object instead of on item.value, so the
dispatched entry is never removed: after the release event of the trace the
queue still holds entry 0, and the next release dispatches the same entry
again.  This theorem evaluates the code at that failing input. -/
theorem c4_queue_never_dequeued :
    stC4.queryQueue = [0] ∧
    (stepFn cfgB (Event.queryFinish 0 4) stC4).2 =
      [Obs.dispatched 0 (some 0)] ∧
    (stepFn cfgB (Event.queryFinish 0 4) stC4).1.queryQueue = [0] ∧
    (stepFn cfgB (Event.queryFinish 0 5)
        (stepFn cfgB (Event.queryFinish 0 4) stC4).1).2 =
      [Obs.dispatched 0 (some 0)] := by
  refine ⟨rfl, rfl, rfl, rfl⟩

/-! ## Claim C5 -/

/-- Claim C5: the claim states that an acquisition that reuses a free
connection removes it from the free set as part of the claim, so two
acquisitions never both obtain the same single free connection.  In the
code, dollar-first does not remove the element (set.delete is called on the
iterator result object), so getConnection on the state stC5 with the single
free connection 0 resolves connection 0 and leaves the state completely
unchanged; a second getConnection on the resulting state obtains the very
same connection.  This theorem evaluates the code at that failing input. -/
theorem c5_double_acquisition :
    stC5.freeConnections = [0] ∧
    (stepFn cfgA Event.getConn stC5).2 = [Obs.resolvedConn 0] ∧
    (stepFn cfgA Event.getConn stC5).1 = stC5 ∧
    (stepFn cfgA Event.getConn
        (stepFn cfgA Event.getConn stC5).1).2 = [Obs.resolvedConn 0] := by
  refine ⟨rfl, rfl, rfl, rfl⟩

/-! ## Claim C6 -/

/-- Claim C6: once end() or destroy() resolves (their shared onEnd
continuation), the pool is marked closed and the four collections are
empty; and every subsequent getConnection or query call on a closed pool
rejects with the pool-closed error without touching the state. -/
theorem c6_closed_pool (cfg : Config) (st : PoolState) (now : Nat) :
    ((stepFn cfg Event.closePool st).1.closed = true ∧
     (stepFn cfg Event.closePool st).1.connections = [] ∧
     (stepFn cfg Event.closePool st).1.busyConnections = [] ∧
     (stepFn cfg Event.closePool st).1.freeConnections = [] ∧
     (stepFn cfg Event.closePool st).1.queryQueue = []) ∧
    (st.closed = true →
      stepFn cfg Event.getConn st = (st, [Obs.poolClosedError]) ∧
      stepFn cfg (Event.doQuery now) st = (st, [Obs.poolClosedError])) := by
  constructor
  · exact ⟨rfl, rfl, rfl, rfl, rfl⟩
  · intro hcl
    constructor
    · show (let g := getConnection cfg PendKind.caller st
        (g.1, getObs g.2)) = (st, [Obs.poolClosedError])
      rw [getConnection_closed hcl]
      rfl
    · show queryRun cfg now st none = (st, [Obs.poolClosedError])
      unfold queryRun
      rw [if_pos hcl]

/-- Claim C6, witness: the two rejections evaluated on a concrete closed
pool state. -/
theorem c6_closed_pool_witness :
    stepFn cfgA Event.getConn stClosed = (stClosed, [Obs.poolClosedError]) ∧
    stepFn cfgA (Event.doQuery 7) stClosed =
      (stClosed, [Obs.poolClosedError]) :=
  (c6_closed_pool cfgA stClosed 7).2 (by rfl)


/-! ## Characterization of the connect-completion handler -/

theorem connectDone_ok_buffer {cfg : Config} {now c : Nat} {st : PoolState}
    {st1 : PoolState} {os1 : List Obs}
    (hp : lookupPending st c = some PendKind.buffer)
    (hrel : releaseConnection cfg now (erasePend st c) c = (st1, os1))
    (hcl1 : st1.closed = false) :
    connectDone cfg now c true st = (st1, os1) := by
  unfold connectDone
  rw [hp]
  dsimp only
  rw [hrel]
  dsimp only
  rw [if_neg (by simp [hcl1])]
  rfl

theorem connectDone_fail {cfg : Config} {now c : Nat} {st : PoolState}
    {kind : PendKind} {st1 : PoolState} {os1 : List Obs}
    (hp : lookupPending st c = some kind)
    (hrel : releaseConnection cfg now (erasePend st c) c = (st1, os1))
    (hcl1 : st1.closed = false) :
    connectDone cfg now c false st =
      (removeConnection st1 c, os1 ++ settleObs kind Obs.connectError) := by
  unfold connectDone
  rw [hp]
  dsimp only
  rw [hrel]
  dsimp only
  rw [if_neg (by simp [hcl1])]
  rfl

/-- A connection is gone from all three sets after removeConnection on an
open pool with duplicate-free collections. -/
theorem not_mem_removeConnection {st : PoolState} {c : Nat}
    (hcl : st.closed = false) (hB : st.busyConnections.Nodup)
    (hF : st.freeConnections.Nodup) (hC : st.connections.Nodup) :
    c ∉ (removeConnection st c).connections ∧
    c ∉ (removeConnection st c).busyConnections ∧
    c ∉ (removeConnection st c).freeConnections := by
  rw [removeConnection_open hcl]
  exact ⟨not_mem_sRemove_self hC, not_mem_sRemove_self hB,
    not_mem_sRemove_self hF⟩

/-- A release that dispatches a queued query runs maybeBufferConnection
exactly once. -/
theorem releaseConnection_bufferRuns_dispatch {cfg : Config} {now : Nat}
    {st : PoolState} {c q : Nat} {qs : List Nat}
    (hcl : st.closed = false) (hq : st.queryQueue = q :: qs) :
    (releaseConnection cfg now st c).1.bufferRuns = st.bufferRuns + 1 := by
  obtain ⟨d, l, hdl⟩ := exists_head_sAdd st.freeConnections c
  rw [releaseConnection_dispatch hcl hq,
    @queryRun_dispatch cfg now (releasedState st c) (some q) d l hcl hdl,
    (startQuery_fields _ _ _).2.2, (maybeBuffer_fields _ _).2.2,
    (useConnection_fields _ _).2.2]
  rfl

/-! ## Claim C2 -/

/-- Claim C2: a query call on a closed pool rejects with the pool-closed
error; otherwise, when a free connection exists or the total connection
count is below maxConnectionLimit, the query is dispatched by acquiring a
connection (claiming a free one or creating one); otherwise it is enqueued
when the queue is below queueLimit and rejected immediately with the
queue-full error when at capacity; and on every reachable state the queue
length never exceeds queueLimit. -/
theorem c2_query_admission (cfg : Config) (st : PoolState) (now : Nat) :
    (st.closed = true →
      queryRun cfg now st none = (st, [Obs.poolClosedError])) ∧
    (st.closed = false →
      (st.freeConnections ≠ [] ∨
       st.connections.length < cfg.maxConnectionLimit) →
      ∃ c, Obs.dispatched c none ∈ (queryRun cfg now st none).2 ∨
        Obs.createdConn c ∈ (queryRun cfg now st none).2) ∧
    (st.closed = false → st.freeConnections = [] →
      cfg.maxConnectionLimit ≤ st.connections.length →
      st.queryQueue.length < cfg.queueLimit →
      (queryRun cfg now st none).1.queryQueue =
        st.queryQueue ++ [st.nextQuery] ∧
      (queryRun cfg now st none).2 = [Obs.enqueued st.nextQuery]) ∧
    (st.closed = false → st.freeConnections = [] →
      cfg.maxConnectionLimit ≤ st.connections.length →
      cfg.queueLimit ≤ st.queryQueue.length →
      queryRun cfg now st none = (st, [Obs.queueFullError])) ∧
    (Reachable cfg st → st.queryQueue.length ≤ cfg.queueLimit) := by
  refine ⟨fun hcl => queryRun_closed_case hcl, ?_, ?_, ?_,
    fun h => queueLen_reachable h⟩
  · intro hcl hcap
    cases hf : st.freeConnections with
    | cons c l =>
      rw [queryRun_dispatch hcl hf]
      exact ⟨c, Or.inl (List.mem_cons_self _ _)⟩
    | nil =>
      have hlen : st.connections.length < cfg.maxConnectionLimit := by
        rcases hcap with hfn | hl
        · exact absurd hf hfn
        · exact hl
      rw [queryRun_create hcl hf hlen]
      exact ⟨st.nextConn, Or.inr (List.mem_cons_self _ _)⟩
  · intro hcl hf hmax hlt
    rw [queryRun_enqueue hcl hf hmax hlt]
    exact ⟨rfl, rfl⟩
  · intro hcl hf hmax hge
    exact queryRun_full hcl hf hmax hge

/-- Claim C2, witness: the dispatch branch on a state with a free
connection, and the queue-full rejection on a saturated one-connection
one-slot pool. -/
theorem c2_query_admission_witness :
    (∃ c, Obs.dispatched c none ∈ (queryRun cfgA 9 stC5 none).2 ∨
      Obs.createdConn c ∈ (queryRun cfgA 9 stC5 none).2) ∧
    queryRun cfgB 9 stC4 none = (stC4, [Obs.queueFullError]) :=
  ⟨(c2_query_admission cfgA stC5 9).2.1 rfl (Or.inl (by decide)),
   (c2_query_admission cfgB stC4 9).2.2.2.1 rfl (by decide) (by decide)
     (by decide)⟩

/-! ## Claim C7 -/

/-- Claim C7, counterexample.  The claim states that buffering is never
triggered, directly or transitively, from the release path.  On the state
stC7 (one busy connection mid-query, one queued query, buffering
configured), the query-completion release event dispatches the queued query
through the normal query path, which invokes maybeBufferConnection: the
ghost invocation counter rises from 1 to 2 during the release. -/
theorem c7_counterexample :
    stC7.bufferRuns = 1 ∧ stC7.queryQueue = [0] ∧
    (stepFn cfgC7 (Event.queryFinish 0 4) stC7).1.bufferRuns = 2 := by
  refine ⟨rfl, rfl, rfl⟩

/-- Claim C7, amended: buffering runs once at construction when
bufferOnConstruct is set and once each time a connection is claimed for a
query — including when the claimed query is a queued entry dispatched
during a connection release; it is never invoked by the decay scanner, by a
purge, by a getConnection call, or by a release that dispatches no queued
query. -/
theorem c7_buffer_triggers (cfg : Config) (st : PoolState) (c now : Nat) :
    ((stepFn cfg (Event.scaleTick now) st).1.bufferRuns = st.bufferRuns) ∧
    ((stepFn cfg (Event.purge c) st).1.bufferRuns = st.bufferRuns) ∧
    ((stepFn cfg Event.getConn st).1.bufferRuns = st.bufferRuns) ∧
    (st.closed = false → st.queryQueue = [] → c ∈ st.connections →
      (stepFn cfg (Event.release c now) st).1.bufferRuns = st.bufferRuns) ∧
    (st.closed = false → st.queryQueue ≠ [] → c ∈ st.connections →
      (stepFn cfg (Event.release c now) st).1.bufferRuns =
        st.bufferRuns + 1) ∧
    ((construct cfg).bufferRuns = if cfg.bufferOnConstruct then 1 else 0) := by
  refine ⟨?_, ?_, ?_, ?_, ?_, ?_⟩
  · show (if st.closed = false ∧ cfg.scaleInterval ≠ 0 ∧
        cfg.connectionDecay ≠ 0 then
        (onScaleInterval cfg now st, ([] : List Obs))
      else (st, [])).1.bufferRuns = st.bufferRuns
    split
    · exact (onScaleInterval_fields cfg now st).2.2.1
    · rfl
  · show (if c ∈ st.connections then (removeConnection st c, ([] : List Obs))
      else (st, [])).1.bufferRuns = st.bufferRuns
    split
    · exact (removeConnection_fields st c).2.2.1
    · rfl
  · exact (getConnection_fields cfg PendKind.caller st).2.2.1
  · intro hcl hq hc
    show (if c ∈ st.connections then releaseConnection cfg now st c
      else (st, [])).1.bufferRuns = st.bufferRuns
    rw [if_pos hc, releaseConnection_no_queue hcl hq]
    rfl
  · intro hcl hq hc
    obtain ⟨q, qs, hqq⟩ : ∃ q qs, st.queryQueue = q :: qs := by
      cases hq2 : st.queryQueue with
      | nil => exact absurd hq2 hq
      | cons q qs => exact ⟨q, qs, rfl⟩
    show (if c ∈ st.connections then releaseConnection cfg now st c
      else (st, [])).1.bufferRuns = st.bufferRuns + 1
    rw [if_pos hc]
    exact releaseConnection_bufferRuns_dispatch hcl hqq
  · by_cases hb : cfg.bufferOnConstruct = true
    · rw [if_pos hb]
      unfold construct
      rw [if_pos hb, (maybeBuffer_fields cfg initState).2.2]
      rfl
    · rw [if_neg hb]
      unfold construct
      rw [if_neg hb]
      rfl

/-! ## Claim C8 -/

/-- Claim C8, counterexample.  The claim states that each buffering run
issues max(0, connectionBuffer - currentFreeCount) create-and-connect
operations clamped to the max limit: at stC8 (2 free connections, total 2,
buffer 5, max 10) that prescribes 3 creations (specBufferShortfall), but
the code issues its acquisition attempts through getConnection, and each
attempt resolves an existing free connection (which dollar-first does not
remove), so no connection at all is created. -/
theorem c8_counterexample :
    stC8.freeConnections.length = 2 ∧ stC8.connections.length = 2 ∧
    createdCount (stepFn cfgC8 Event.bufferTick stC8).2 = 0 ∧
    specBufferShortfall cfgC8 stC8 = 3 := by
  refine ⟨rfl, rfl, rfl, rfl⟩

/-- Claim C8, amended: a buffering run creates connections only when the
free set is empty, in which case it creates exactly min(connectionBuffer,
maxConnectionLimit - total) of them (for a non-zero buffer below the
limit); when any free connection exists it creates none, and when its guard
fails (zero buffer, at the limit, or free count at least the buffer) it
does nothing at all.  Completion of a buffering handshake is swallowed:
with no queued query waiting it settles no caller, leaves a successfully
connected connection in the free set, and on failure surfaces nothing and
removes the connection from all three collections. -/
theorem c8_buffering_behaviour (cfg : Config) (st : PoolState)
    (c now : Nat) :
    (st.closed = false → st.freeConnections = [] →
      cfg.connectionBuffer ≠ 0 →
      st.connections.length < cfg.maxConnectionLimit →
      createdCount (maybeBufferConnection cfg st).2 =
        min cfg.connectionBuffer
          (cfg.maxConnectionLimit - st.connections.length)) ∧
    (st.freeConnections ≠ [] →
      createdCount (maybeBufferConnection cfg st).2 = 0) ∧
    ((cfg.connectionBuffer = 0 ∨
      cfg.maxConnectionLimit ≤ st.connections.length ∨
      cfg.connectionBuffer ≤ st.freeConnections.length) →
      (maybeBufferConnection cfg st).2 = []) ∧
    (st.closed = false → lookupPending st c = some PendKind.buffer →
      st.queryQueue = [] →
      (connectDone cfg now c true st).2 = [] ∧
      c ∈ (connectDone cfg now c true st).1.freeConnections) ∧
    (st.closed = false → lookupPending st c = some PendKind.buffer →
      st.queryQueue = [] → FullInv st →
      (connectDone cfg now c false st).2 = [] ∧
      c ∉ (connectDone cfg now c false st).1.connections ∧
      c ∉ (connectDone cfg now c false st).1.busyConnections ∧
      c ∉ (connectDone cfg now c false st).1.freeConnections) := by
  refine ⟨?_, ?_, ?_, ?_, ?_⟩
  · intro hcl hf hb hlen
    unfold maybeBufferConnection
    dsimp only
    rw [if_pos ⟨hb, hlen, by rw [hf]; exact Nat.pos_of_ne_zero hb⟩]
    by_cases hcase : cfg.maxConnectionLimit <
        st.connections.length + cfg.connectionBuffer
    · rw [if_pos hcase,
        bufferLoop_count_empty (cfg.maxConnectionLimit -
            st.connections.length)
          { st with bufferRuns := st.bufferRuns + 1 } hcl hf
          (show st.connections.length +
            (cfg.maxConnectionLimit - st.connections.length) ≤
            cfg.maxConnectionLimit by omega)]
      omega
    · rw [if_neg hcase, if_neg (by simp [hf]),
        bufferLoop_count_empty cfg.connectionBuffer
          { st with bufferRuns := st.bufferRuns + 1 } hcl hf
          (show st.connections.length + cfg.connectionBuffer ≤
            cfg.maxConnectionLimit by omega)]
      omega
  · intro hf
    unfold maybeBufferConnection
    dsimp only
    split
    · rw [@bufferLoop_stay cfg _
        { st with bufferRuns := st.bufferRuns + 1 } hf]
      rfl
    · rfl
  · intro hdis
    unfold maybeBufferConnection
    dsimp only
    have hng : ¬ (cfg.connectionBuffer ≠ 0 ∧
        st.connections.length < cfg.maxConnectionLimit ∧
        st.freeConnections.length < cfg.connectionBuffer) := by
      rintro ⟨g1, g2, g3⟩
      rcases hdis with h | h | h
      · exact g1 h
      · exact absurd g2 (Nat.not_lt.2 h)
      · exact absurd g3 (Nat.not_lt.2 h)
    rw [if_neg hng]
  · intro hcl hp hq
    rw [connectDone_ok_buffer hp
      (@releaseConnection_no_queue cfg now (erasePend st c) c hcl hq) hcl]
    exact ⟨rfl, mem_sAdd_self⟩
  · intro hcl hp hq hInv
    rw [connectDone_fail hp
      (@releaseConnection_no_queue cfg now (erasePend st c) c hcl hq) hcl]
    have hnm := @not_mem_removeConnection
      (releasedState (erasePend st c) c) c hcl
      (sRemove_nodup hInv.ndB) (sAdd_nodup hInv.ndF) hInv.ndC
    exact ⟨rfl, hnm.1, hnm.2.1, hnm.2.2⟩

/-! ## Claim C10 -/

/-- Claim C10: every connect-handshake completion first runs the shared
release path, so on a failed handshake with no free connection and a
non-empty queue the unusable connection transiently enters the free set,
where the oldest queued query is dispatched onto it, before the
getConnection failure handler removes the connection from all three
registry sets and the acquiring caller is rejected with the connect
error. -/
theorem c10_failed_handshake (cfg : Config) (st : PoolState)
    (c now q : Nat) (qs : List Nat)
    (hcl : st.closed = false)
    (hp : lookupPending st c = some PendKind.forQuery)
    (hf : st.freeConnections = [])
    (hq : st.queryQueue = q :: qs)
    (hInv : FullInv st) (hc : c ∈ st.connections) :
    Obs.dispatched c (some q) ∈ (connectDone cfg now c false st).2 ∧
    Obs.connectError ∈ (connectDone cfg now c false st).2 ∧
    c ∉ (connectDone cfg now c false st).1.connections ∧
    c ∉ (connectDone cfg now c false st).1.busyConnections ∧
    c ∉ (connectDone cfg now c false st).1.freeConnections := by
  have hfc : sAdd st.freeConnections c = [c] := by
    rw [hf]
    exact sAdd_nil c
  have hrel := @releaseConnection_dispatch cfg now (erasePend st c) c q qs
    hcl hq
  have hdisp := @queryRun_dispatch cfg now (releasedState (erasePend st c) c)
    (some q) c ([] : List Nat) hcl hfc
  have hrel2 := hrel.trans hdisp
  have hInvR := @fullInv_releaseConnection cfg now (erasePend st c) c
    ⟨hInv.ndC, hInv.ndB, hInv.ndF, hInv.freshC, hInv.freshB, hInv.freshF,
     hInv.subB, hInv.subF, hInv.disj, hInv.cover⟩ hc
  rw [hrel2] at hInvR
  have hclR := releaseConnection_closed cfg now (erasePend st c) c
  rw [hrel2] at hclR
  have hclR2 := hclR.trans hcl
  rw [connectDone_fail hp hrel2 hclR2]
  have hnm := not_mem_removeConnection (c := c) hclR2
    hInvR.ndB hInvR.ndF hInvR.ndC
  refine ⟨?_, ?_, hnm.1, hnm.2.1, hnm.2.2⟩
  · exact List.mem_append.2 (Or.inl (List.mem_cons_self _ _))
  · exact List.mem_append.2 (Or.inr (List.mem_cons_self _ _))

/-- Claim C10, witness: the stC10 state has connection 0 mid-handshake for
a query and queue entry 0 waiting; a failed handshake dispatches the queued
entry onto connection 0 and then removes connection 0 everywhere. -/
theorem c10_failed_handshake_witness :
    Obs.dispatched 0 (some 0) ∈ (connectDone cfgB 5 0 false stC10).2 ∧
    Obs.connectError ∈ (connectDone cfgB 5 0 false stC10).2 ∧
    0 ∉ (connectDone cfgB 5 0 false stC10).1.connections ∧
    0 ∉ (connectDone cfgB 5 0 false stC10).1.busyConnections ∧
    0 ∉ (connectDone cfgB 5 0 false stC10).1.freeConnections :=
  c10_failed_handshake cfgB stC10 0 5 0 [] (by decide) (by decide)
    (by decide) (by decide)
    ⟨by decide, by decide, by decide, by decide, by decide, by decide,
     by decide, by decide, by decide, by decide⟩ (by decide)


/-- Claim C7, witness: the amended release-trigger count evaluated on the
concrete state with a queued query. -/
theorem c7_buffer_triggers_witness :
    (stepFn cfgC7 (Event.release 0 4) stC7).1.bufferRuns =
      stC7.bufferRuns + 1 :=
  (c7_buffer_triggers cfgC7 stC7 0 4).2.2.2.2.1 rfl (by decide) (by decide)

/-- Claim C8, witness: the amended creation count evaluated on the freshly
constructed pool (free set empty): min(5, 10 - 0) connections are
created. -/
theorem c8_buffering_behaviour_witness :
    createdCount (maybeBufferConnection cfgC8 (construct cfgC8)).2 =
      min cfgC8.connectionBuffer
        (cfgC8.maxConnectionLimit - (construct cfgC8).connections.length) :=
  (c8_buffering_behaviour cfgC8 (construct cfgC8) 0 0).1 rfl rfl
    (by decide) (by decide)

/-! ## Machinery for the decay scanner (claim C9) -/

theorem insSorted_perm (le : Nat → Nat → Bool) (a : Nat) (l : List Nat) :
    List.Perm (insSorted le a l) (a :: l) := by
  induction l with
  | nil => exact List.Perm.refl _
  | cons b l ih =>
    unfold insSorted
    split
    · exact List.Perm.refl _
    · exact (ih.cons b).trans (List.Perm.swap a b l)

theorem jsSort_perm (le : Nat → Nat → Bool) (l : List Nat) :
    List.Perm (jsSort le l) l := by
  induction l with
  | nil => exact List.Perm.refl _
  | cons a l ih =>
    exact (insSorted_perm le a (jsSort le l)).trans (ih.cons a)

theorem foldl_remove_mem_conns (l : List Nat) (st : PoolState)
    (hcl : st.closed = false) (hnd : st.connections.Nodup) (a : Nat) :
    (a ∈ (l.foldl removeConnection st).connections ↔
      a ∈ st.connections ∧ a ∉ l) := by
  induction l generalizing st with
  | nil => simp
  | cons x xs ih =>
    have hcl2 : (removeConnection st x).closed = st.closed :=
      (removeConnection_fields st x).1
    have hnd2 : (removeConnection st x).connections.Nodup := by
      rw [removeConnection_open hcl]
      exact sRemove_nodup hnd
    show a ∈ (xs.foldl removeConnection
      (removeConnection st x)).connections ↔ _
    rw [ih _ (hcl2.trans hcl) hnd2, removeConnection_open hcl]
    show a ∈ sRemove st.connections x ∧ a ∉ xs ↔ _
    rw [mem_sRemove_of_nodup hnd]
    simp only [List.mem_cons, not_or]
    tauto

theorem foldl_remove_len (l : List Nat) (st : PoolState)
    (hcl : st.closed = false) (hnd : st.connections.Nodup)
    (hl : l.Nodup) (hsub : ∀ a ∈ l, a ∈ st.connections) :
    (l.foldl removeConnection st).connections.length =
      st.connections.length - l.length := by
  induction l generalizing st with
  | nil => simp
  | cons x xs ih =>
    have hcl2 : (removeConnection st x).closed = st.closed :=
      (removeConnection_fields st x).1
    have hnd2 : (removeConnection st x).connections.Nodup := by
      rw [removeConnection_open hcl]
      exact sRemove_nodup hnd
    have hxmem : x ∈ st.connections := hsub x (List.mem_cons_self _ _)
    have hxs := List.nodup_cons.1 hl
    show (xs.foldl removeConnection
      (removeConnection st x)).connections.length = _
    rw [ih _ (hcl2.trans hcl) hnd2 hxs.2 ?_]
    · rw [removeConnection_open hcl]
      show (sRemove st.connections x).length - xs.length = _
      unfold sRemove
      rw [List.length_erase_of_mem hxmem]
      have := List.length_pos_of_mem hxmem
      simp only [List.length_cons]
      omega
    · intro b hb
      rw [removeConnection_open hcl]
      show b ∈ sRemove st.connections x
      refine (mem_sRemove_of_nodup hnd).2 ⟨?_, hsub b (List.mem_cons_of_mem _ hb)⟩
      intro hbx
      exact hxs.1 (hbx ▸ hb)

theorem foldl_remove_busy (l : List Nat) (st : PoolState)
    (hnb : ∀ a ∈ l, a ∉ st.busyConnections) :
    (l.foldl removeConnection st).busyConnections = st.busyConnections := by
  induction l generalizing st with
  | nil => rfl
  | cons x xs ih =>
    have hbeq : (removeConnection st x).busyConnections =
        st.busyConnections := by
      unfold removeConnection
      split
      · rfl
      · show sRemove st.busyConnections x = st.busyConnections
        exact List.erase_of_not_mem (hnb x (List.mem_cons_self _ _))
    show (xs.foldl removeConnection
      (removeConnection st x)).busyConnections = _
    rw [ih _ ?_, hbeq]
    intro b hb
    rw [hbeq]
    exact hnb b (List.mem_cons_of_mem _ hb)

theorem onScaleInterval_inert {cfg : Config} {now : Nat} {st : PoolState}
    (h : staleFree cfg now st = []) :
    onScaleInterval cfg now st = st := by
  unfold onScaleInterval
  split
  · rfl
  · dsimp only
    rw [if_pos (by rw [h]; rfl)]

theorem onScaleInterval_no_floor {cfg : Config} {now : Nat} {st : PoolState}
    (hdec : cfg.connectionDecay ≠ 0)
    (hne : staleFree cfg now st ≠ [])
    (hfloor : ¬ ((st.connections.length : Int) -
      (staleFree cfg now st).length < (cfg.minConnectionLimit : Int))) :
    onScaleInterval cfg now st =
      (staleFree cfg now st).foldl removeConnection st := by
  unfold onScaleInterval
  rw [if_neg hdec]
  dsimp only
  rw [if_neg (fun h => hne (List.length_eq_zero.1 h)), if_neg hfloor]

theorem onScaleInterval_floor {cfg : Config} {now : Nat} {st : PoolState}
    (hdec : cfg.connectionDecay ≠ 0)
    (hne : staleFree cfg now st ≠ [])
    (hfloor : (st.connections.length : Int) -
      (staleFree cfg now st).length < (cfg.minConnectionLimit : Int)) :
    onScaleInterval cfg now st =
      ((jsSort (jsLE st) (staleFree cfg now st)).take
        (spliceKeep (staleFree cfg now st).length
          ((st.connections.length : Int) -
            (cfg.minConnectionLimit : Int)))).foldl removeConnection st := by
  unfold onScaleInterval
  rw [if_neg hdec]
  dsimp only
  rw [if_neg (fun h => hne (List.length_eq_zero.1 h)), if_pos hfloor]

/-! ## Claim C9 -/

/-- Claim C9, counterexample.  The claim states that when the purge list is
reduced to respect minConnectionLimit, connections with no recorded query
are treated as the oldest and purged first, preserving the most recently
used eligible connections.  In the code the sort comparator subtracts
lastQuery values, so a comparison against an unset timestamp is NaN, which
the sort treats as a tie and leaves the pair in free-set order.  At stC9
(free order [0, 1], connection 0 last queried at time 10, connection 1
never queried, decay 100, floor 1, scan at time 200) both are stale and one
must be kept: the code destroys connection 0 and keeps the never-queried
connection 1, while the claim requires the opposite. -/
theorem c9_counterexample :
    stC9.freeConnections = [0, 1] ∧
    lastQueryOf stC9 0 = some 10 ∧ lastQueryOf stC9 1 = none ∧
    (stepFn cfgC9 (Event.scaleTick 200) stC9).1.connections = [1] ∧
    (stepFn cfgC9 (Event.scaleTick 200) stC9).1.freeConnections = [1] := by
  refine ⟨rfl, rfl, rfl, rfl, rfl⟩

/-- Claim C9, amended: on each decay tick with a truthy connectionDecay,
only free connections whose last-query timestamp is unset or at least
connectionDecay old (the staleFree list) are ever destroyed, and busy
connections are never touched.  When purging all of them keeps the total at
or above minConnectionLimit, exactly the stale free connections are
removed.  When it would drop the total below the floor (and the floor is at
most the current total), exactly minConnectionLimit connections remain, and
every non-stale connection survives; the kept connections are chosen by a
stable ascending sort by last-query time in which any comparison against an
unset timestamp counts as a tie, so never-queried connections are NOT
treated as oldest. -/
theorem c9_decay_scan (cfg : Config) (now : Nat) (st : PoolState)
    (hdec : cfg.connectionDecay ≠ 0) (hcl : st.closed = false)
    (hInv : FullInv st) :
    ((onScaleInterval cfg now st).busyConnections = st.busyConnections) ∧
    (¬ ((st.connections.length : Int) - (staleFree cfg now st).length <
        (cfg.minConnectionLimit : Int)) →
      ∀ a, a ∈ (onScaleInterval cfg now st).connections ↔
        a ∈ st.connections ∧ a ∉ staleFree cfg now st) ∧
    ((st.connections.length : Int) - (staleFree cfg now st).length <
        (cfg.minConnectionLimit : Int) →
      staleFree cfg now st ≠ [] →
      cfg.minConnectionLimit ≤ st.connections.length →
      (onScaleInterval cfg now st).connections.length =
        cfg.minConnectionLimit ∧
      ∀ a, a ∈ st.connections → a ∉ staleFree cfg now st →
        a ∈ (onScaleInterval cfg now st).connections) := by
  have hstale_free : ∀ a ∈ staleFree cfg now st, a ∈ st.freeConnections := by
    intro a ha
    exact (List.mem_filter.1 ha).1
  have hstale_nb : ∀ a ∈ staleFree cfg now st, a ∉ st.busyConnections := by
    intro a ha hb
    exact hInv.disj a hb (hstale_free a ha)
  have hstale_nd : (staleFree cfg now st).Nodup :=
    List.Nodup.filter _ hInv.ndF
  refine ⟨?_, ?_, ?_⟩
  · by_cases hne : staleFree cfg now st = []
    · rw [onScaleInterval_inert hne]
    · by_cases hfloor : (st.connections.length : Int) -
          (staleFree cfg now st).length < (cfg.minConnectionLimit : Int)
      · rw [onScaleInterval_floor hdec hne hfloor]
        refine foldl_remove_busy _ _ ?_
        intro a ha
        exact hstale_nb a
          ((jsSort_perm (jsLE st) (staleFree cfg now st)).mem_iff.1
            (List.take_subset _ _ ha))
      · rw [onScaleInterval_no_floor hdec hne hfloor]
        exact foldl_remove_busy _ _ hstale_nb
  · intro hfloor a
    by_cases hne : staleFree cfg now st = []
    · rw [onScaleInterval_inert hne, hne]
      simp
    · rw [onScaleInterval_no_floor hdec hne hfloor]
      exact foldl_remove_mem_conns _ _ hcl hInv.ndC a
  · intro hfloor hne hmin
    rw [onScaleInterval_floor hdec hne hfloor]
    have hsp : spliceKeep (staleFree cfg now st).length
        ((st.connections.length : Int) - (cfg.minConnectionLimit : Int)) =
        st.connections.length - cfg.minConnectionLimit := by
      unfold spliceKeep
      rw [if_pos (by omega)]
      have hlt : st.connections.length - cfg.minConnectionLimit <
          (staleFree cfg now st).length := by omega
      omega
    have hperm := jsSort_perm (jsLE st) (staleFree cfg now st)
    have hjnd : (jsSort (jsLE st) (staleFree cfg now st)).Nodup :=
      hperm.nodup_iff.2 hstale_nd
    have hjlen : (jsSort (jsLE st) (staleFree cfg now st)).length =
        (staleFree cfg now st).length := hperm.length_eq
    have htake_sub : ∀ a ∈ (jsSort (jsLE st)
        (staleFree cfg now st)).take
          (spliceKeep (staleFree cfg now st).length
            ((st.connections.length : Int) -
              (cfg.minConnectionLimit : Int))),
        a ∈ staleFree cfg now st := by
      intro a ha
      exact hperm.mem_iff.1 (List.take_subset _ _ ha)
    have htake_len : ((jsSort (jsLE st) (staleFree cfg now st)).take
        (spliceKeep (staleFree cfg now st).length
          ((st.connections.length : Int) -
            (cfg.minConnectionLimit : Int)))).length =
        st.connections.length - cfg.minConnectionLimit := by
      rw [List.length_take, hjlen, hsp]
      omega
    constructor
    · rw [foldl_remove_len _ _ hcl hInv.ndC
        (List.Nodup.sublist (List.take_sublist _ _) hjnd)
        (fun a ha => hInv.subF a (hstale_free a (htake_sub a ha))),
        htake_len]
      omega
    · intro a hmem hnstale
      rw [foldl_remove_mem_conns _ _ hcl hInv.ndC]
      exact ⟨hmem, fun hin => hnstale (htake_sub a hin)⟩

/-- Claim C9, witness: the amended floor-case conclusion evaluated at stC9:
exactly minConnectionLimit = 1 connection remains after the tick. -/
theorem c9_decay_scan_witness :
    (onScaleInterval cfgC9 200 stC9).connections.length =
      cfgC9.minConnectionLimit :=
  ((c9_decay_scan cfgC9 200 stC9 (by decide) rfl
    ⟨by decide, by decide, by decide, by decide, by decide, by decide,
     by decide, by decide, by decide, by decide⟩).2.2
    (by decide) (by decide) (by decide)).1

end ScalePool
